import Mathlib

/-!
# Minuit2 crossing search and TCanvas construction

A shallow embedding of two parts of the repository.

* `ROOT.Minuit2`: the crossing search declared by `MnFunctionCross.h`.  The header
  declares the class only; the body of `operator()` is not among the sources, so the
  search loop is modelled from the written specification, over exact rationals.
* `TCanvas`: the constructors, `Init`, `Build`, `Resize`, `Size`, `SetCanvasSize`,
  `SetBatch`, `SetFixedAspectRatio`, `SetName` with `GetNewCanvasName`, and `cd` of
  `TCanvas.cxx`.  Floating values are the rationals they stand for, and each floating
  operation is the exact operation followed by the rounding to `Float_t` or `Double_t`.
-/

set_option autoImplicit false

namespace ROOT.Minuit2

/-! ## Data model of the crossing search -/

/-- Modelled from the spec: the parameter type is not among the sources; the spec gives
each parameter a current value, a step size (local error estimate), optional lower and
upper limits and a free or fixed status. -/
structure MinuitParameter where
  value : ℚ
  error : ℚ
  lower : Option ℚ
  upper : Option ℚ
  fixed : Bool
deriving DecidableEq

/-- Modelled from the spec: `MnUserParameterState` is forward-declared in the header
and its definition is missing; the spec describes it as an ordered collection of
parameters which supports cloning with a parameter fixed at a prescribed value. -/
structure MnUserParameterState where
  params : List MinuitParameter
deriving DecidableEq

/-- Modelled from the spec: `MnStrategy` is forward-declared in the header; the spec
lists the tolerance multiplier on the target increase, the iteration and call budgets,
and asks that the numerical-noise tolerance be passed through the strategy. -/
structure MnStrategy where
  tolerance : ℚ
  maxIterations : Nat
  maxCalls : Nat
  noise : ℚ
deriving DecidableEq

/-- Modelled from the spec: fixing a parameter at a prescribed value; the entry at
position `i` is set to `v` and marked fixed. -/
def fixList : List MinuitParameter → Nat → ℚ → List MinuitParameter
  | [], _, _ => []
  | p :: ps, 0, v => { p with value := v, fixed := true } :: ps
  | p :: ps, i + 1, v => p :: fixList ps i v

/-- Modelled from the spec: the state with parameter `i` fixed at value `v`. -/
def MnUserParameterState.fixAt (s : MnUserParameterState) (i : Nat) (v : ℚ) :
    MnUserParameterState :=
  ⟨fixList s.params i v⟩

/-- Modelled from the spec: the current value of parameter `i` (zero when there is no
such parameter). -/
def MnUserParameterState.valueAt (s : MnUserParameterState) (i : Nat) : ℚ :=
  match s.params[i]? with
  | some p => p.value
  | none => 0

/-- Modelled from the spec: the declared limits (lower, upper) of parameter `i`. -/
def MnUserParameterState.limitsOf (s : MnUserParameterState) (i : Nat) :
    Option ℚ × Option ℚ :=
  match s.params[i]? with
  | some p => (p.lower, p.upper)
  | none => (none, none)

/-- Modelled from the spec: what the constrained re-minimizer returns, the minimized
state, the objective value there, the validity of the run and the function calls it
consumed. -/
structure Reminimization where
  state : MnUserParameterState
  fval : ℚ
  isValid : Bool
  nfcn : Nat

/-- Modelled from the spec: a trial point of the search, the value tried, the
re-minimized objective value, the validity of that re-minimization and the calls it
consumed. -/
structure TrialPoint where
  x : ℚ
  fval : ℚ
  valid : Bool
  nfcn : Nat
deriving DecidableEq

/-- Modelled from the spec: `MnCross` is forward-declared in the header; the spec
gives the result a parameter value, five terminal flags and the number of
re-minimization calls consumed. -/
structure MnCross where
  value : ℚ
  converged : Bool
  atLimit : Bool
  newMinimumFound : Bool
  maxCallsExceeded : Bool
  invalidReminimization : Bool
  nCalls : Nat
deriving DecidableEq

/-- Modelled from the spec: the request of one crossing search, here for one parameter
index (the spec states the extrapolation and the step cap for a scalar trial value
only): the index, the direction (its sign is the search direction), the initial step
guess, the target increase and the budget of re-minimization calls. -/
structure CrossingRequest where
  index : Nat
  direction : ℚ
  stepGuess : ℚ
  targetDelta : ℚ
  maxCalls : Nat

/-- The class `MnFunctionCross` of the header: the objective, the parameter state, the
value at the minimum and the strategy, as given to its constructor. -/
structure MnFunctionCross where
  fFCN : List ℚ → ℚ
  fState : MnUserParameterState
  fFval : ℚ
  fStrategy : MnStrategy

/-- Modelled from the spec: the collaborators and tunable constants the spec leaves open,
which are parameters of the model: the constrained re-minimizer, the proposal of the
parabolic extrapolator (from the window of at most three most recent trial points and the
target level), the factor of the step cap and the bound on failed re-minimizations. -/
structure CrossEnv where
  reminimize : MnUserParameterState → Reminimization
  next : List TrialPoint → ℚ → ℚ
  stepCapFactor : ℚ
  maxFailures : Nat

/-- Modelled from the spec: the memory of one call, the state and strategy of the
caller (held by constant reference in the header),
the working copy of the state, the ordered history of trial points (most recent
first) and the count of failed re-minimizations. -/
structure CrossMem where
  caller : MnUserParameterState
  strategy : MnStrategy
  work : MnUserParameterState
  history : List TrialPoint
  failures : Nat

/-! ## The search loop -/

/-- Modelled from the spec: the sign of the search direction. -/
def dirSign (d : ℚ) : ℚ := if d < 0 then -1 else 1

/-- Modelled from the spec: a value clamped to the declared limits. -/
def clampTo (lim : Option ℚ × Option ℚ) (x : ℚ) : ℚ :=
  let y := match lim.1 with
    | some l => max l x
    | none => x
  match lim.2 with
  | some h => min h y
  | none => y

/-- Modelled from the spec: whether a value falls outside a declared limit. -/
def beyond (lim : Option ℚ × Option ℚ) (x : ℚ) : Bool :=
  (match lim.1 with
    | some l => decide (x < l)
    | none => false) ||
  (match lim.2 with
    | some h => decide (h < x)
    | none => false)

/-- Modelled from the spec: whether a value lies strictly inside the declared limits. -/
def strictlyInside (lim : Option ℚ × Option ℚ) (x : ℚ) : Bool :=
  (match lim.1 with
    | some l => decide (l < x)
    | none => true) &&
  (match lim.2 with
    | some h => decide (x < h)
    | none => true)

/-- Modelled from the spec: the step cap of section 4.2; a proposal further from the last
trial than `cap` times the reference step is pulled back to that distance, in the same
direction. -/
def capStep (cap ref last proposal : ℚ) : ℚ :=
  if |proposal - last| ≤ cap * |ref| then proposal
  else if 0 ≤ proposal - last then last + cap * |ref|
  else last - cap * |ref|

/-- Modelled from the spec: the reference step of the cap, the previous step when two
trial points exist, the initial step guess otherwise. -/
def refStep (stepGuess : ℚ) : List TrialPoint → ℚ
  | t1 :: t0 :: _ => t1.x - t0.x
  | _ => stepGuess

/-- Modelled from the spec: the next trial value (section 4.1, step 5), the proposal of
the extrapolator from the sliding window of the three most recent points, capped. -/
def nextTrial (env : CrossEnv) (req : CrossingRequest) (target : ℚ) :
    List TrialPoint → ℚ
  | [] => 0
  | t1 :: rest =>
      capStep env.stepCapFactor (refStep req.stepGuess (t1 :: rest)) t1.x
        (env.next ((t1 :: rest).take 3) target)

/-- Modelled from the spec: the best trial so far, read as the trial point whose
objective value is closest to the target level (the earliest
of several equally close ones). -/
def bestTrial (target : ℚ) : List TrialPoint → Option TrialPoint
  | [] => none
  | t :: ts =>
      match bestTrial target ts with
      | none => some t
      | some b => if |t.fval - target| < |b.fval - target| then some t else some b

/-- Modelled from the spec: a result with no terminal flag set (in progress). -/
def MnCross.inProgress (v : ℚ) (n : Nat) : MnCross :=
  ⟨v, false, false, false, false, false, n⟩

/-- Modelled from the spec: the trial of one iteration (section 4.1, step 1 with the clamp
of step 4): the trial value clamped to the declared limits and the outcome of
re-minimizing the working copy with the parameter fixed there. -/
def trialAt (env : CrossEnv) (req : CrossingRequest) (x : ℚ) (σ : CrossMem) : TrialPoint :=
  let xc := clampTo (σ.caller.limitsOf req.index) x
  let r := env.reminimize (σ.work.fixAt req.index xc)
  ⟨xc, r.fval, r.isValid, r.nfcn⟩

/-- Modelled from the spec: the memory after the trial of one iteration; the working copy
has the parameter fixed at the trial value, the trial point heads the history, and an
invalid re-minimization at a point strictly inside the limits counts as a failure (step
3). The state and strategy of the caller are not written. -/
def runTrial (env : CrossEnv) (req : CrossingRequest) (x : ℚ) (σ : CrossMem) : CrossMem :=
  let t := trialAt env req x σ
  { σ with
    work := σ.work.fixAt req.index t.x
    history := t :: σ.history
    failures :=
      if t.valid = false ∧ strictlyInside (σ.caller.limitsOf req.index) t.x = true then
        σ.failures + 1
      else σ.failures }

/-- Modelled from the spec: the terminal tests after a trial, in the order of section
4.1: `newMinimumFound` when
the objective is below the original minimum by more than the noise tolerance (step 2),
`invalidReminimization` when the failures pass the bound (step 3), `atLimit` when the
trial fell outside a limit and the objective at the limit is still below the target
(step 4), `converged` when the objective is within `tolerance * targetDelta` of the
target (step 6).  No result means the search goes on.  Here `x` is the trial value
before the clamp, `t` the trial point and `σ` the memory after the trial. -/
def judge (env : CrossEnv) (req : CrossingRequest) (fval x : ℚ) (t : TrialPoint)
    (σ : CrossMem) : Option MnCross :=
  if t.fval < fval - σ.strategy.noise then
    some { MnCross.inProgress t.x σ.history.length with newMinimumFound := true }
  else if env.maxFailures < σ.failures then
    some { MnCross.inProgress t.x σ.history.length with invalidReminimization := true }
  else if beyond (σ.caller.limitsOf req.index) x = true ∧ t.fval < fval + req.targetDelta then
    some { MnCross.inProgress t.x σ.history.length with atLimit := true }
  else if |t.fval - (fval + req.targetDelta)| ≤ σ.strategy.tolerance * req.targetDelta then
    some { MnCross.inProgress t.x σ.history.length with converged := true }
  else none

/-- Modelled from the spec: the result when the call budget is used up, `maxCallsExceeded`
with the best trial so far (the current value when there was no trial at all). -/
def outOfCalls (req : CrossingRequest) (fval : ℚ) (σ : CrossMem) : MnCross :=
  { MnCross.inProgress
      (match bestTrial (fval + req.targetDelta) σ.history with
        | some t => t.x
        | none => σ.caller.valueAt req.index)
      σ.history.length with maxCallsExceeded := true }

/-- Modelled from the spec: the body of `MnFunctionCross::operator()` is missing from
the sources; this is the loop of spec section 4.1 for one parameter index.  Each
iteration makes one trial (`runTrial`: exactly one re-minimization) and applies the
terminal tests (`judge`); when none fires, the capped proposal of the extrapolator is
the next trial (step 5).  With the budget used up the search ends with
`maxCallsExceeded` (step 6).  The steps consult the tolerance and the noise allowance
of the strategy; the budget is the `maxCalls` of the request, counted in
re-minimization calls.  The first argument is the number of re-minimization calls
still allowed, the second the next trial value. -/
def searchLoop (env : CrossEnv) (req : CrossingRequest) (fval : ℚ) :
    Nat → ℚ → CrossMem → MnCross × CrossMem
  | 0, _, σ => (outOfCalls req fval σ, σ)
  | n + 1, x, σ =>
      match judge env req fval x (trialAt env req x σ) (runTrial env req x σ) with
      | some r => (r, runTrial env req x σ)
      | none =>
          searchLoop env req fval n
            (nextTrial env req (fval + req.targetDelta) (runTrial env req x σ).history)
            (runTrial env req x σ)

/-- Modelled from the spec: the first trial value (section 4.1, step 1), the current
value moved by the step guess in the requested
direction. -/
def firstTrial (s : MnUserParameterState) (req : CrossingRequest) : ℚ :=
  s.valueAt req.index + dirSign req.direction * req.stepGuess

/-- Modelled from the spec: `MnFunctionCross::operator()`, whose body is missing from
the sources.  The search starts from a working copy of the state of the caller and an
empty history and runs the loop with the requested call budget; it returns the result
together with the final memory of the call. -/
def MnFunctionCross.solve (self : MnFunctionCross) (env : CrossEnv)
    (req : CrossingRequest) : MnCross × CrossMem :=
  searchLoop env req self.fFval req.maxCalls (firstTrial self.fState req)
    ⟨self.fState, self.fStrategy, self.fState, [], 0⟩

/-- The number of terminal flags set in a result. -/
def MnCross.flagCount (r : MnCross) : Nat :=
  r.converged.toNat + r.atLimit.toNat + r.newMinimumFound.toNat +
    r.maxCallsExceeded.toNat + r.invalidReminimization.toNat

/-! ## Properties of a run, as predicates on its history and result -/

/-- The step cap read off a history (most recent first): every step between
consecutive trial values is at most `cap` times the step before it, and the step from
the first to the second trial is at most `cap` times the initial step guess. -/
def StepsCapped (cap stepGuess : ℚ) : List TrialPoint → Prop
  | t2 :: t1 :: t0 :: rest =>
      |t2.x - t1.x| ≤ cap * |t1.x - t0.x| ∧ StepsCapped cap stepGuess (t1 :: t0 :: rest)
  | [t2, t1] => |t2.x - t1.x| ≤ cap * |stepGuess|
  | _ => True

/-- The value `v` is that of a recorded trial point whose objective value is at least
as close to the target as that of every recorded trial point. -/
def IsBestTrial (target : ℚ) (history : List TrialPoint) (v : ℚ) : Prop :=
  ∃ t ∈ history, t.x = v ∧ ∀ s ∈ history, |t.fval - target| ≤ |s.fval - target|

/-- The trial point `t` meets none of the tests of steps 2, 4 and 6 on a single trial:
its objective is not below the original minimum by more than the noise allowance, it
lies strictly inside the limits (so it was not clamped) or its objective is not below
the target, and its objective is not within `tolerance * targetDelta` of the target. -/
def NoTerminalTest (strategy : MnStrategy) (lim : Option ℚ × Option ℚ) (fval targetDelta : ℚ)
    (t : TrialPoint) : Prop :=
  ¬ t.fval < fval - strategy.noise ∧
    (strictlyInside lim t.x = true ∨ ¬ t.fval < fval + targetDelta) ∧
    ¬ |t.fval - (fval + targetDelta)| ≤ strategy.tolerance * targetDelta

/-- The number of recorded trial points with an invalid re-minimization strictly inside
the limits, the failures that step 3 counts. -/
def failedTrials (lim : Option ℚ × Option ℚ) (history : List TrialPoint) : Nat :=
  (history.filter (fun t => !t.valid && strictlyInside lim t.x)).length

/-! ## The scenarios of the spec -/

/-- The re-minimizer of an objective `a * (x - x0)^2` of the single parameter `i`:
with no other free parameter, re-minimizing is evaluating the objective. -/
def quadraticRemin (a x0 : ℚ) (i : Nat) : MnUserParameterState → Reminimization :=
  fun s => ⟨s, a * (s.valueAt i - x0) ^ 2, true, 1⟩

/-- The state of the scenarios: one free parameter at its minimum 2, with the given
limits. -/
def scenarioState (lo hi : Option ℚ) : MnUserParameterState :=
  ⟨[⟨2, 1, lo, hi, false⟩]⟩

/-- The strategy of the scenarios: tolerance one hundredth, no noise allowance. -/
def scenarioStrategy : MnStrategy := ⟨1 / 100, 100, 1000, 0⟩

/-- The solver of the scenarios for the objective `(x - 2)^2` with minimum value 0. -/
def scenarioCross (lo hi : Option ℚ) : MnFunctionCross :=
  ⟨fun v => (v.headD 0 - 2) ^ 2, scenarioState lo hi, 0, scenarioStrategy⟩

/-- The collaborators of the scenarios: the objective `(x - 2)^2`, an extrapolator
which proposes the value `guess` whatever the history, step cap factor 2 and at most
3 failed re-minimizations. -/
def scenarioEnv (guess : ℚ) : CrossEnv :=
  ⟨quadraticRemin 1 2 0, fun _ _ => guess, 2, 3⟩

end ROOT.Minuit2

/-! ## TCanvas: the members, the globals and the window system -/

/-- A canvas implementation as the canvas uses it: whether it is a web implementation,
the window identifier `InitWindow` returns and the window geometry
`GetWindowGeometry` reports. -/
structure TCanvasImp where
  isWeb : Bool
  windowId : Int
  winX : Int
  winY : Int
  winW : Nat
  winH : Nat
deriving DecidableEq

/-- The members of a `TCanvas` that the constructors, `Init` and `Build` assign.
`UInt_t` members are naturals below `2^32`; a `Size_t` (`Float_t`) or `Double_t` member
is the rational value the floating number stands for; the status bits are one boolean
each.  Pointer members are kept as far as they are tested:
the implementation, and whether a painter, a context menu and the list of primitives
exist.  The graphics attributes of the pad are left out. -/
structure TCanvas where
  fName : String
  fTitle : String
  fCanvasID : Int
  fCanvasImp : Option TCanvasImp
  fBatch : Bool
  fUpdating : Bool
  fWindowTopX : Int
  fWindowTopY : Int
  fWindowWidth : Nat
  fWindowHeight : Nat
  fCw : Nat
  fCh : Nat
  fXsizeUser : ℚ
  fYsizeUser : ℚ
  fXsizeReal : ℚ
  fYsizeReal : ℚ
  fDoubleBuffer : Int
  fUseGL : Bool
  fRetained : Bool
  fDrawn : Bool
  fUpdated : Bool
  fEvent : Int
  fEventX : Int
  fEventY : Int
  fSelectedX : Int
  fSelectedY : Int
  fHighLightColor : Int
  hasPainter : Bool
  hasContextMenu : Bool
  hasPrimitives : Bool
  isOnHeap : Bool
  kMenuBar : Bool
  kMoveOpaque : Bool
  kResizeOpaque : Bool
  kShowEventStatus : Bool
  kShowToolTips : Bool
  kShowToolBar : Bool
  kShowEditor : Bool
  kAutoExec : Bool
  fAspectRatio : ℚ
  fFixedAspectRatio : Bool
deriving DecidableEq

/-- The globals a constructor reads: whether the `gThreadXAR` hook is set and takes
the call over, `gROOT->IsBatch()`, `gROOT->IsWebDisplay()`, the screen factor (a
`Float_t`) and the
default canvas geometry of `gStyle`, what the two factories return from
`CreateCanvasImp`, whether a GL painter can be made, the `Canvas.*` settings of
`gEnv`, the canvas geometry `gVirtualX->GetGeometry` reports and the default canvas
name. -/
structure Globals where
  threadXAR : Bool
  isBatch : Bool
  isWebDisplay : Bool
  screenFactor : ℚ
  canvasDefW : Int
  canvasDefH : Int
  canvasDefX : Int
  canvasDefY : Int
  batchFactory : Option TCanvasImp
  guiFactory : Option TCanvasImp
  glPainter : Bool
  envHighLightColor : Int
  envMoveOpaque : Bool
  envResizeOpaque : Bool
  envShowEventStatus : Bool
  envShowToolTips : Bool
  envShowToolBar : Bool
  envShowEditor : Bool
  envAutoExec : Bool
  geomCw : Nat
  geomCh : Nat
  defCanvasName : String

/-- A call the canvas makes on a factory or on its implementation. -/
inductive GuiCall where
  | createCanvasImp (batchFactory : Bool) (name : String) (pos : Option (Int × Int))
      (w h : Nat)
  | initWindow
  | showMenuBar (visible : Bool)
  | setWindowTitle (title : String)
  | showStatusBar
  | showToolBar
  | showEditor
  | showToolTips
  | showWindow
  | setCanvasSize (w h : Nat)
deriving DecidableEq

/-- The part of the program state outside the canvas: the global list of canvases
(name and whether the canvas is on the heap) and the calls made so far, in order. -/
structure World where
  canvases : List (String × Bool)
  calls : List GuiCall

/-! ### Floating-point values

A `Float_t`, `Size_t` or `Double_t` value is the rational number it stands for; every
floating operation of the code is the exact operation followed by the rounding to the
type of the result. -/

/-- Rounding of a rational to the nearest integer, a tie going to the even one. -/
def roundHalfEven (x : ℚ) : Int :=
  if x - ⌊x⌋ < 1 / 2 then ⌊x⌋
  else if 1 / 2 < x - ⌊x⌋ then ⌊x⌋ + 1
  else if ⌊x⌋ % 2 = 0 then ⌊x⌋ else ⌊x⌋ + 1

/-- Rounding of a positive rational to `p` significant bits: with `2^k ≤ x < 2^(k+1)`
the value is scaled to `[2^(p-1), 2^p)`, rounded to the nearest integer, a tie to the
even one, and scaled back. -/
def roundPositive (p : Nat) (x : ℚ) : ℚ :=
  (roundHalfEven (x / (2 : ℚ) ^ (Int.log 2 x - ((p : Int) - 1))) : ℚ) *
    (2 : ℚ) ^ (Int.log 2 x - ((p : Int) - 1))

/-- Rounding of a rational to the nearest binary floating value with `p` significant
bits, a tie going to the even significand (the default rounding of IEEE 754).  The
exponent is not bounded: overflow and subnormal values are not part of the model. -/
def roundBinary (p : Nat) (x : ℚ) : ℚ :=
  if x = 0 then 0 else if 0 < x then roundPositive p x else -roundPositive p (-x)

/-- The value a `Float_t` or `Size_t` holds after an operation with exact result `x`. -/
def toFloat (x : ℚ) : ℚ := roundBinary 24 x

/-- The value a `Double_t` holds after an operation with exact result `x`. -/
def toDouble (x : ℚ) : ℚ := roundBinary 53 x

/-- The default canvas size in centimetres, `kDefaultCanvasSize`, a `Size_t`. -/
def kDefaultCanvasSize : ℚ := 20

/-- Conversion of an integer to `Int_t`. -/
def toInt32 (z : Int) : Int := (z + 2 ^ 31) % 2 ^ 32 - 2 ^ 31

/-- Conversion of an integer to `UInt_t`. -/
def toUInt32 (z : Int) : Nat := (z % 2 ^ 32).toNat

/-- Truncation of a floating value toward zero, as the casts `Int_t(..)` and
`UInt_t(..)` do. -/
def truncate (q : ℚ) : Int := if 0 ≤ q then ⌊q⌋ else ⌈q⌉

/-- The loop of `GetNewCanvasName`: while the candidate is the name of a canvas in the
list, the next candidate is `<default>_n<k>` with `k` counted up.  The first argument
bounds the number of rounds. -/
def findNewName (names : List String) (defcanvas : String) : Nat → Nat → String → String
  | 0, _, cdef => cdef
  | fuel + 1, n, cdef =>
      if cdef ∈ names then
        findNewName names defcanvas fuel (n + 1) (defcanvas ++ "_n" ++ toString n)
      else cdef

/-- The function `GetNewCanvasName`: a non-empty argument is returned as it is;
otherwise the default canvas name, or the first unused `<default>_n<k>` counting from
the list size plus one.  A list of `m` names makes at most `m` candidates fail, which
bounds the loop. -/
def GetNewCanvasName (g : Globals) (w : World) (arg : Option String) : String :=
  match arg with
  | some a =>
      if a ≠ "" then a
      else findNewName (w.canvases.map Prod.fst) g.defCanvasName (w.canvases.length + 1)
        (w.canvases.length + 1) g.defCanvasName
  | none =>
      findNewName (w.canvases.map Prod.fst) g.defCanvasName (w.canvases.length + 1)
        (w.canvases.length + 1) g.defCanvasName

/-- The method `TCanvas::Init`: the defaults read from `gEnv` and the canvas data. -/
def TCanvas.Init (g : Globals) (c : TCanvas) : TCanvas :=
  { c with
    fHighLightColor := g.envHighLightColor
    kMoveOpaque := g.envMoveOpaque
    kResizeOpaque := g.envResizeOpaque
    kShowEventStatus := c.kShowEventStatus || g.envShowEventStatus
    kShowToolTips := c.kShowToolTips || g.envShowToolTips
    kShowToolBar := c.kShowToolBar || g.envShowToolBar
    kShowEditor := c.kShowEditor || g.envShowEditor
    kAutoExec := c.kAutoExec || g.envAutoExec
    fXsizeUser := 0
    fYsizeUser := 0
    fXsizeReal := kDefaultCanvasSize
    fYsizeReal := kDefaultCanvasSize
    fUpdating := false
    fRetained := true
    fSelectedX := 0
    fSelectedY := 0
    fEvent := -1
    fEventX := -1
    fEventY := -1
    hasContextMenu := false
    fDrawn := false
    fUpdated := false }

/-- The method `TCanvas::IsBatch`. -/
def TCanvas.IsBatch (c : TCanvas) : Bool := c.fBatch

/-- The method `TCanvas::IsWeb`. -/
def TCanvas.IsWeb (c : TCanvas) : Bool :=
  match c.fCanvasImp with
  | some imp => imp.isWeb
  | none => false

/-- The method `TCanvas::SetBatch`. -/
def TCanvas.SetBatch (g : Globals) (c : TCanvas) (batch : Bool) : TCanvas :=
  if g.isBatch || c.IsWeb then { c with fBatch := true } else { c with fBatch := batch }

/-- The method `TCanvas::CreatePainter`. -/
def TCanvas.CreatePainter (g : Globals) (c : TCanvas) : TCanvas :=
  if !c.fUseGL || c.fBatch then { c with hasPainter := true }
  else if g.glPainter then { c with hasPainter := true }
  else { c with hasPainter := true, fUseGL := false }

/-- The method `TCanvas::SetTitle`. -/
def TCanvas.SetTitle (c : TCanvas) (w : World) (title : String) : TCanvas × World :=
  ({ c with fTitle := title },
    if c.fCanvasImp.isSome then { w with calls := w.calls ++ [GuiCall.setWindowTitle title] }
    else w)

/-- The calls of the last block of `Build`: with the menu bar bit and an
implementation, the status bar, tool bar, editor and tool tips are shown as their
bits say. -/
def menuCalls (c : TCanvas) : List GuiCall :=
  if c.kMenuBar && c.fCanvasImp.isSome then
    (if c.kShowEventStatus then [GuiCall.showStatusBar] else []) ++
    (if c.kShowToolBar then [GuiCall.showToolBar] else []) ++
    (if c.kShowEditor then [GuiCall.showEditor] else []) ++
    (if c.kShowToolTips then [GuiCall.showToolTips] else [])
  else []

/-- The first statement of `Build`: a canvas without window identifier asks its
implementation, when it has one, for the identifier. -/
def TCanvas.getWindowId (c : TCanvas) : TCanvas :=
  match c.fCanvasImp with
  | some imp => if c.fCanvasID = -1 then { c with fCanvasID := imp.windowId } else c
  | none => c

/-- The block of `Build` on the real size: with both pixel sizes non-zero the smaller
side of the real size is scaled by the aspect ratio.  The pixel sizes are converted to
`Float_t`, and the product and the quotient are `Float_t` operations. -/
def TCanvas.scaleRealSize (c : TCanvas) : TCanvas :=
  if c.fCw ≠ 0 ∧ c.fCh ≠ 0 then
    if c.fCw < c.fCh then
      { c with fXsizeReal :=
          toFloat (toFloat (c.fYsizeReal * toFloat (c.fCw : ℚ)) / toFloat (c.fCh : ℚ)) }
    else
      { c with fYsizeReal :=
          toFloat (toFloat (c.fXsizeReal * toFloat (c.fCh : ℚ)) / toFloat (c.fCw : ℚ)) }
  else c

/-- The block of `Build` on the three modes: a batch canvas takes the decoration
(4 and 28 pixels) off its size, in `UInt_t` arithmetic; a web canvas is marked batch; a
canvas with a screen window takes its window geometry from the implementation and its
size from the window system, and gets double buffering and a context menu. -/
def TCanvas.setupMode (g : Globals) (c : TCanvas) : TCanvas :=
  if c.IsBatch then
    { c with fCw := (c.fCw + (2 ^ 32 - 4)) % 2 ^ 32
             fCh := (c.fCh + (2 ^ 32 - 28)) % 2 ^ 32 }
  else if c.IsWeb then c.SetBatch g true
  else
    match c.fCanvasImp with
    | some imp =>
        { c with fDoubleBuffer := 1
                 fWindowTopX := imp.winX
                 fWindowTopY := imp.winY
                 fWindowWidth := imp.winW
                 fWindowHeight := imp.winH
                 fCw := g.geomCw
                 fCh := g.geomCh
                 hasContextMenu := true }
    | none =>
        { c with fDoubleBuffer := 1
                 fCw := g.geomCw
                 fCh := g.geomCh
                 hasContextMenu := true }

/-- The method `TCanvas::Build`: the window identifier is fetched, and without one the
method returns; otherwise the real size is scaled, the mode is set up, the canvas is
added to the global list, the list of primitives is created and the bars of the
implementation are shown. -/
def TCanvas.Build (g : Globals) (c : TCanvas) (w : World) : TCanvas × World :=
  if c.getWindowId.fCanvasID = -1 then
    (c.getWindowId,
      if c.fCanvasID = -1 ∧ c.fCanvasImp.isSome = true then
        { w with calls := w.calls ++ [GuiCall.initWindow] }
      else w)
  else
    ({ c.getWindowId.scaleRealSize.setupMode g with hasPrimitives := true },
      { canvases := w.canvases ++
          [((c.getWindowId.scaleRealSize.setupMode g).fName,
            (c.getWindowId.scaleRealSize.setupMode g).isOnHeap)]
        calls := (if c.fCanvasID = -1 ∧ c.fCanvasImp.isSome = true then
            w.calls ++ [GuiCall.initWindow]
          else w.calls) ++
          menuCalls { c.getWindowId.scaleRealSize.setupMode g with hasPrimitives := true } })

/-- The common start of the constructors after the size or form argument is read: a
heap canvas of the same name in the global list is deleted. -/
def deleteOld (w : World) (name : String) : World :=
  match w.canvases.find? (fun e => e.1 == name) with
  | some old => if old.2 then { w with canvases := w.canvases.erase old } else w
  | none => w

/-- The common end of the constructors once an implementation exists: painter, name,
title, `Build` and the popup of the window. -/
def finishConstructor (g : Globals) (c : TCanvas) (w : World) (name title : String) :
    TCanvas × World :=
  let c1 := c.CreatePainter g
  let c2 : TCanvas := { c1 with fName := GetNewCanvasName g w (some name) }
  let (c3, w3) := c2.SetTitle w title
  let (c4, w4) := c3.Build g w3
  (c4, { w4 with calls := w4.calls ++ [GuiCall.showWindow] })

/-- The normal-mode part shared by the constructors after the implementation is
created: the window is initialised when there is no identifier yet, the menu bar is
shown as the bit says, the canvas is not batch. -/
def normalModeSetup (g : Globals) (c : TCanvas) (w : World) (imp : TCanvasImp) :
    TCanvas × World :=
  let initNow := !g.isBatch && decide (c.fCanvasID = -1)
  let c1 : TCanvas := if initNow then { c with fCanvasID := imp.windowId } else c
  let w1 : World := if initNow then { w with calls := w.calls ++ [GuiCall.initWindow] } else w
  ({ c1 with fBatch := false }, { w1 with calls := w1.calls ++ [GuiCall.showMenuBar c1.kMenuBar] })

/-- The method `TCanvas::Constructor(name, title, form)`.  When the `gThreadXAR` hook
takes the call over, the method returns at once; what the hook does with the canvas is
outside the model, and the canvas and world are returned as they were.  The screen
factor `cx` is a `Float_t`: in `cx*ux` the integer is converted to `Float_t` and the
product is a `Float_t` operation. -/
def TCanvas.ConstructorForm (g : Globals) (self : TCanvas) (w : World)
    (name title : String) (form : Int) : TCanvas × World :=
  if g.threadXAR then (self, w)
  else
    let c0 : TCanvas := { self.Init g with kMenuBar := true }
    let form1 : Int := if form < 0 then toInt32 (-form) else form
    let c1 : TCanvas := if form < 0 then { c0 with kMenuBar := false } else c0
    let c2 : TCanvas := { c1 with fCanvasID := -1 }
    let w1 := deleteOld w name
    if g.isBatch then
      let ww : Nat := if form1 = 1 then toUInt32 g.canvasDefW else 500
      let wh : Nat := if form1 = 1 then toUInt32 g.canvasDefH else 500
      let c3 : TCanvas :=
        { c2 with fWindowTopX := 0, fWindowTopY := 0, fWindowWidth := ww,
                  fWindowHeight := wh, fCw := ww, fCh := wh, fCanvasImp := g.batchFactory }
      let w2 : World :=
        { w1 with calls := w1.calls ++ [GuiCall.createCanvasImp true name none ww wh] }
      match g.batchFactory with
      | none => (c3, w2)
      | some _ => finishConstructor g { c3 with fBatch := true } w2 name title
    else
      let cx := g.screenFactor
      let form2 : Int := if form1 < 1 ∨ form1 > 20 then 1 else form1
      let cw : Int := if form2 = 1 then g.canvasDefW else 500
      let ch : Int := if form2 = 1 then g.canvasDefH else 500
      let ux : Int := if form2 = 1 then g.canvasDefX else toInt32 (form2 * 10)
      let uy : Int := if form2 = 1 then g.canvasDefY else toInt32 (form2 * 10)
      let created := if g.isWebDisplay then g.batchFactory else g.guiFactory
      let c3 : TCanvas := { c2 with fCanvasImp := created }
      let w2 : World :=
        { w1 with calls := w1.calls ++ [GuiCall.createCanvasImp g.isWebDisplay name
            (some (toInt32 (truncate (toFloat (cx * toFloat ux))),
              toInt32 (truncate (toFloat (cx * toFloat uy)))))
            (toUInt32 (truncate (toFloat (cx * toFloat cw))))
            (toUInt32 (truncate (toFloat (cx * toFloat ch))))] }
      match created with
      | none => (c3, w2)
      | some imp =>
          let (c4, w3) := normalModeSetup g c3 w2 imp
          finishConstructor g c4 w3 name title

/-- The method `TCanvas::Constructor(name, title, ww, wh)`.  When the `gThreadXAR` hook
takes the call over, the method returns at once, as in the constructor by form.  For a
height that is not positive the constructor reports the error and returns after `Init`
and the menu bar bit. -/
def TCanvas.ConstructorSize (g : Globals) (self : TCanvas) (w : World)
    (name title : String) (ww wh : Int) : TCanvas × World :=
  if g.threadXAR then (self, w)
  else
    let c0 : TCanvas := { self.Init g with kMenuBar := true }
    let ww1 : Int := if ww < 0 then toInt32 (-ww) else ww
    let c1 : TCanvas := if ww < 0 then { c0 with kMenuBar := false } else c0
    if wh ≤ 0 then (c1, w)
    else
      let c2 : TCanvas := { c1 with fCw := toUInt32 ww1, fCh := toUInt32 wh, fCanvasID := -1 }
      let w1 := deleteOld w name
      if g.isBatch then
        let c3 : TCanvas :=
          { c2 with fWindowTopX := 0, fWindowTopY := 0, fWindowWidth := toUInt32 ww1,
                    fWindowHeight := toUInt32 wh, fCw := toUInt32 ww1, fCh := toUInt32 wh,
                    fCanvasImp := g.batchFactory }
        let w2 : World :=
          { w1 with calls := w1.calls ++
              [GuiCall.createCanvasImp true name none (toUInt32 ww1) (toUInt32 wh)] }
        match g.batchFactory with
        | none => (c3, w2)
        | some _ => finishConstructor g { c3 with fBatch := true } w2 name title
      else
        let cx := g.screenFactor
        let created := if g.isWebDisplay then g.batchFactory else g.guiFactory
        let c3 : TCanvas := { c2 with fCanvasImp := created }
        let w2 : World :=
          { w1 with calls := w1.calls ++ [GuiCall.createCanvasImp g.isWebDisplay name none
              (toUInt32 (truncate (toFloat (cx * toFloat ww1))))
              (toUInt32 (truncate (toFloat (cx * toFloat wh))))] }
        match created with
        | none => (c3, w2)
        | some imp =>
            let (c4, w3) := normalModeSetup g c3 w2 imp
            finishConstructor g c4 w3 name title

/-- The requests for a canvas implementation among a list of calls: position (when
one is given) and size. -/
def requests : List GuiCall → List (Option (Int × Int) × Nat × Nat)
  | [] => []
  | GuiCall.createCanvasImp _ _ pos w h :: cs => (pos, w, h) :: requests cs
  | _ :: cs => requests cs

/-! ## TCanvas: size, batch flag, aspect ratio, name and current pad -/

/-- The method `TCanvas::Constructor()`, the default constructor body: a canvas with
no window and no implementation, in batch mode.  When the `gThreadXAR` hook takes the
call over, the method returns at once. -/
def TCanvas.Constructor (g : Globals) (self : TCanvas) : TCanvas :=
  if g.threadXAR then self
  else
    { self with fCanvasID := -1, fCanvasImp := none, fBatch := true, fUpdating := false,
                hasContextMenu := false, kAutoExec := true, kShowEditor := true,
                kShowToolBar := true }

/-- The method `TCanvas::SetCanvasSize(ww, wh)` with `UInt_t` arguments: a canvas with
an implementation takes the size and passes it to the implementation; a canvas
without one is left as it is.  The pad coordinates `ResizePad` recomputes are not
members of the model. -/
def TCanvas.SetCanvasSize (c : TCanvas) (w : World) (ww wh : Nat) : TCanvas × World :=
  match c.fCanvasImp with
  | some _ =>
      ({ c with fCw := ww, fCh := wh },
        { w with calls := w.calls ++ [GuiCall.setCanvasSize ww wh] })
  | none => (c, w)

/-- The pixel size `(nww, nwh)` the block of `Resize` on the user sizes computes from
the canvas size `(cw, ch)` and the ratio `rxy`, statement by statement: the products
and quotients are `Double_t` operations on the pixel size converted to `Double_t`, and
the casts `UInt_t(..)` truncate. -/
def fitSize (cw ch : Nat) (rxy : ℚ) : Nat × Nat :=
  if rxy < 1 then
    let twh := toUInt32 (truncate (toDouble ((cw : ℚ) / rxy)))
    let nww0 := if twh > ch then toUInt32 (truncate (toDouble ((ch : ℚ) * rxy))) else cw
    let nwh0 := if twh > ch then ch else twh
    let nww1 := if nww0 > cw then cw else nww0
    let nwh1 := if nww0 > cw then twh else nwh0
    let nww2 := if nwh1 > ch then toUInt32 (truncate (toDouble ((ch : ℚ) / rxy))) else nww1
    let nwh2 := if nwh1 > ch then ch else nwh1
    (nww2, nwh2)
  else
    let twh := toUInt32 (truncate (toDouble ((cw : ℚ) * rxy)))
    let nwh0 := if twh > ch then toUInt32 (truncate (toDouble ((cw : ℚ) / rxy))) else ch
    let nww0 := if twh > ch then cw else twh
    let nww1 := if nww0 > cw then cw else nww0
    let nwh1 := if nww0 > cw then twh else nwh0
    let nww2 := if nwh1 > ch then toUInt32 (truncate (toDouble ((ch : ℚ) * rxy))) else nww1
    let nwh2 := if nwh1 > ch then ch else nwh1
    (nww2, nwh2)

/-- The block of `Resize` on the user sizes: with both user sizes non-zero the pixel
size becomes what `fitSize` computes for the ratio `rxy = fXsizeUser/fYsizeUser`, a
quotient of two `Size_t` values and so a `Float_t` operation. -/
def TCanvas.fitUserSize (c : TCanvas) : TCanvas :=
  if c.fXsizeUser ≠ 0 ∧ c.fYsizeUser ≠ 0 then
    { c with fCw := (fitSize c.fCw c.fCh (toFloat (c.fXsizeUser / c.fYsizeUser))).1
             fCh := (fitSize c.fCw c.fCh (toFloat (c.fXsizeUser / c.fYsizeUser))).2 }
  else c

/-- The last block of `Resize`: the larger pixel side gets the default real size, the
other side is scaled by the aspect ratio.  The product and the quotient are `Double_t`
operations on the pixel sizes converted to `Double_t`, and the result is stored in a
`Size_t`.  For a canvas of size 0 x 0 the code divides zero by zero; the model has the
value 0 of the rational division there. -/
def TCanvas.autoRealSize (c : TCanvas) : TCanvas :=
  if c.fCw < c.fCh then
    { c with fYsizeReal := kDefaultCanvasSize
             fXsizeReal :=
               toFloat (toDouble (toDouble (kDefaultCanvasSize * (c.fCw : ℚ)) / (c.fCh : ℚ))) }
  else
    { c with fXsizeReal := kDefaultCanvasSize
             fYsizeReal :=
               toFloat (toDouble (toDouble (kDefaultCanvasSize * (c.fCh : ℚ)) / (c.fCw : ℚ))) }

/-- The block of `Resize` for a canvas with a screen window (neither batch nor web):
the window geometry is read from the implementation and the canvas size from the
window system. -/
def TCanvas.readGeometry (g : Globals) (c : TCanvas) : TCanvas :=
  if !c.IsBatch && !c.IsWeb then
    match c.fCanvasImp with
    | some imp =>
        { c with fWindowTopX := imp.winX, fWindowTopY := imp.winY, fWindowWidth := imp.winW,
                 fWindowHeight := imp.winH, fCw := g.geomCw, fCh := g.geomCh }
    | none => { c with fCw := g.geomCw, fCh := g.geomCh }
  else c

/-- The method `TCanvas::Resize`.  A canvas without window identifier is left as it
is.  `lineProcessing` is `gROOT->IsLineProcessing()` and `cmdThread` is
`gVirtualX->IsCmdThread()`: with both false the call is handed to the interpreter and
the method returns; what the interpreter then does is outside the model.  Otherwise
the geometry is read, the user sizes are fitted and the real sizes are set. -/
def TCanvas.Resize (g : Globals) (lineProcessing cmdThread : Bool) (c : TCanvas) : TCanvas :=
  if c.fCanvasID = -1 then c
  else if !lineProcessing && !cmdThread then c
  else ((c.readGeometry g).fitUserSize).autoRealSize

/-- The method `TCanvas::Size(xsize, ysize)` with `Float_t` arguments: the user sizes
are stored and the canvas is resized. -/
def TCanvas.Size (g : Globals) (lineProcessing cmdThread : Bool) (c : TCanvas)
    (xsize ysize : ℚ) : TCanvas :=
  TCanvas.Resize g lineProcessing cmdThread { c with fXsizeUser := xsize, fYsizeUser := ysize }

/-- The method `TCanvas::SetFixedAspectRatio`.  The ratio `Double_t(fCw) / fCh` is a
`Double_t` quotient of the two sizes converted to `Double_t`. -/
def TCanvas.SetFixedAspectRatio (c : TCanvas) (fixed : Bool) : TCanvas :=
  if fixed then
    if !c.fFixedAspectRatio then
      if c.fCh ≠ 0 then
        { c with fAspectRatio := toDouble ((c.fCw : ℚ) / (c.fCh : ℚ)),
                 fFixedAspectRatio := true }
      else c
    else c
  else { c with fFixedAspectRatio := false, fAspectRatio := 0 }

/-- The name `<default>_n<k>` that `GetNewCanvasName` forms. -/
def numberedName (defcanvas : String) (k : Nat) : String :=
  defcanvas ++ "_n" ++ toString k

/-- The method `TCanvas::SetName`: the name is what `GetNewCanvasName` gives for the
argument (`none` stands for a null pointer).  The modified flag of the pad is not a
member of the model. -/
def TCanvas.SetName (g : Globals) (w : World) (c : TCanvas) (name : Option String) : TCanvas :=
  { c with fName := GetNewCanvasName g w name }

/-- The outcome of `TCanvas::cd`: the pointer returned (`none` for a null pointer), the
current pad `gPad` after the call, and the window selected through the window system,
if any.  Pads are named by numbers. -/
structure CdOutcome where
  result : Option Nat
  gPad : Option Nat
  selected : Option Int
deriving DecidableEq

/-- The method `TCanvas::cd(subpadnumber)`.  The method `TPad::cd` is not among the
sources: `padCd` is the current pad it leaves, given the canvas, the current pad
before the call and the subpad number. -/
def TCanvas.cd (padCd : TCanvas → Option Nat → Int → Option Nat) (c : TCanvas)
    (gPad : Option Nat) (subpadnumber : Int) : CdOutcome :=
  if c.fCanvasID = -1 then ⟨none, gPad, none⟩
  else
    ⟨padCd c gPad subpadnumber, padCd c gPad subpadnumber,
      if !c.IsBatch && !c.IsWeb && c.fDoubleBuffer == 0 then some c.fCanvasID else none⟩

/-! ## A concrete session for the constructors -/

/-- An implementation with window identifier 1 and a 700 x 500 window at (10, 10). -/
def sampleImp : TCanvasImp := ⟨false, 1, 10, 10, 700, 500⟩

/-- The globals of a sample session, in batch mode or not: no thread hook, no web
display, screen factor 1, the default canvas 700 x 500 at (10, 10), both factories
returning `sampleImp`. -/
def sampleGlobals (batch : Bool) : Globals :=
  { threadXAR := false, isBatch := batch, isWebDisplay := false, screenFactor := 1,
    canvasDefW := 700, canvasDefH := 500, canvasDefX := 10, canvasDefY := 10,
    batchFactory := some sampleImp, guiFactory := some sampleImp, glPainter := false,
    envHighLightColor := 2, envMoveOpaque := false, envResizeOpaque := false,
    envShowEventStatus := false, envShowToolTips := false, envShowToolBar := false,
    envShowEditor := false, envAutoExec := true, geomCw := 696, geomCh := 472,
    defCanvasName := "c1" }

/-- A canvas as the `TPad` constructor leaves it, before a `TCanvas` constructor body
runs. -/
def blankCanvas : TCanvas :=
  { fName := "", fTitle := "", fCanvasID := 0, fCanvasImp := none, fBatch := false,
    fUpdating := false, fWindowTopX := 0, fWindowTopY := 0, fWindowWidth := 0,
    fWindowHeight := 0, fCw := 0, fCh := 0, fXsizeUser := 0, fYsizeUser := 0,
    fXsizeReal := 0, fYsizeReal := 0, fDoubleBuffer := 0, fUseGL := false,
    fRetained := false, fDrawn := false, fUpdated := false, fEvent := 0, fEventX := 0,
    fEventY := 0, fSelectedX := 0, fSelectedY := 0, fHighLightColor := 0,
    hasPainter := false, hasContextMenu := false, hasPrimitives := false, isOnHeap := true,
    kMenuBar := false, kMoveOpaque := false, kResizeOpaque := false,
    kShowEventStatus := false, kShowToolTips := false, kShowToolBar := false,
    kShowEditor := false, kAutoExec := false, fAspectRatio := 0,
    fFixedAspectRatio := false }

/-- A session with no canvas and no call made yet. -/
def emptyWorld : World := ⟨[], []⟩

/-! ## Lemmas on the parameter state and the clamp -/

namespace ROOT.Minuit2

theorem fixList_fixList (l : List MinuitParameter) (i : Nat) (a b : ℚ) :
    fixList (fixList l i a) i b = fixList l i b := by
  induction l generalizing i with
  | nil => rfl
  | cons p ps ih =>
    cases i with
    | zero => rfl
    | succ i => simp [fixList, ih]

theorem fixAt_fixAt (s : MnUserParameterState) (i : Nat) (a b : ℚ) :
    (s.fixAt i a).fixAt i b = s.fixAt i b := by
  simp [MnUserParameterState.fixAt, fixList_fixList]

theorem clampTo_abs_sub_le (lim : Option ℚ × Option ℚ) (a b : ℚ) :
    |clampTo lim a - clampTo lim b| ≤ |a - b| := by
  have h1 := le_abs_self (a - b)
  have h2 := neg_abs_le (a - b)
  obtain ⟨lo, hi⟩ := lim
  cases lo <;> cases hi <;> simp only [clampTo, max_def, min_def] <;> rw [abs_le] <;>
    constructor <;> (try split_ifs) <;> linarith

theorem clampTo_idem (lim : Option ℚ × Option ℚ) (x : ℚ) :
    clampTo lim (clampTo lim x) = clampTo lim x := by
  obtain ⟨lo, hi⟩ := lim
  cases lo <;> cases hi <;> simp only [clampTo, max_def, min_def] <;> split_ifs <;>
    first | rfl | linarith

theorem not_strictlyInside_of_beyond (lim : Option ℚ × Option ℚ) (x : ℚ)
    (h : beyond lim x = true) : strictlyInside lim (clampTo lim x) = false := by
  obtain ⟨lo, hi⟩ := lim
  cases lo <;> cases hi <;>
    simp only [clampTo, beyond, strictlyInside, max_def, min_def, Bool.or_eq_true,
      decide_eq_true_eq, Bool.and_eq_false_imp, Bool.false_or, Bool.or_false,
      Bool.true_and, Bool.and_true, decide_eq_false_iff_not, not_lt, Bool.false_eq_true] at h ⊢
  · split_ifs <;> linarith
  · split_ifs <;> linarith
  · intro h1
    rcases h with h | h <;> split_ifs at h1 ⊢ <;> linarith

theorem capStep_abs_sub_le (cap ref last proposal : ℚ) (hcap : 0 ≤ cap) :
    |capStep cap ref last proposal - last| ≤ cap * |ref| := by
  have hb : 0 ≤ cap * |ref| := mul_nonneg hcap (abs_nonneg _)
  unfold capStep
  split_ifs with h1 h2
  · exact h1
  · simp [abs_of_nonneg hb]
  · simp [abs_of_nonneg hb]

end ROOT.Minuit2

/-! ## Lemmas on one iteration -/

namespace ROOT.Minuit2

@[simp]
theorem runTrial_caller (env : CrossEnv) (req : CrossingRequest) (x : ℚ) (σ : CrossMem) :
    (runTrial env req x σ).caller = σ.caller := rfl

@[simp]
theorem runTrial_history (env : CrossEnv) (req : CrossingRequest) (x : ℚ)
    (σ : CrossMem) : (runTrial env req x σ).history = trialAt env req x σ :: σ.history := rfl

@[simp]
theorem runTrial_work (env : CrossEnv) (req : CrossingRequest) (x : ℚ) (σ : CrossMem) :
    (runTrial env req x σ).work = σ.work.fixAt req.index (trialAt env req x σ).x := rfl

@[simp]
theorem trialAt_x (env : CrossEnv) (req : CrossingRequest) (x : ℚ) (σ : CrossMem) :
    (trialAt env req x σ).x = clampTo (σ.caller.limitsOf req.index) x := rfl

theorem searchLoop_zero (env : CrossEnv) (req : CrossingRequest) (fval x : ℚ) (σ : CrossMem) :
    searchLoop env req fval 0 x σ = (outOfCalls req fval σ, σ) := rfl

theorem searchLoop_done (env : CrossEnv) (req : CrossingRequest) (fval : ℚ) (n : Nat) (x : ℚ)
    (σ : CrossMem) (r : MnCross)
    (h : judge env req fval x (trialAt env req x σ) (runTrial env req x σ) = some r) :
    searchLoop env req fval (n + 1) x σ = (r, runTrial env req x σ) := by
  rw [searchLoop, h]

theorem searchLoop_more (env : CrossEnv) (req : CrossingRequest) (fval : ℚ) (n : Nat) (x : ℚ)
    (σ : CrossMem)
    (h : judge env req fval x (trialAt env req x σ) (runTrial env req x σ) = none) :
    searchLoop env req fval (n + 1) x σ =
      searchLoop env req fval n
        (nextTrial env req (fval + req.targetDelta) (runTrial env req x σ).history)
        (runTrial env req x σ) := by
  rw [searchLoop, h]

/-- What a terminal test that fires says about its result: exactly one flag, never
`maxCallsExceeded`, the trial value as value and the history length as call count. -/
theorem judge_some (env : CrossEnv) (req : CrossingRequest) (fval x : ℚ) (t : TrialPoint)
    (σ : CrossMem) (r : MnCross) (h : judge env req fval x t σ = some r) :
    r.flagCount = 1 ∧ r.maxCallsExceeded = false ∧ r.value = t.x ∧
      r.nCalls = σ.history.length := by
  unfold judge at h
  split_ifs at h <;> simp only [Option.some.injEq, reduceCtorEq] at h <;> subst h <;>
    simp [MnCross.flagCount, MnCross.inProgress]

theorem judge_newMinimum (env : CrossEnv) (req : CrossingRequest) (fval x : ℚ) (t : TrialPoint)
    (σ : CrossMem) (h : t.fval < fval - σ.strategy.noise) :
    judge env req fval x t σ =
      some { MnCross.inProgress t.x σ.history.length with newMinimumFound := true } := by
  unfold judge; rw [if_pos h]

theorem searchLoop_frame (env : CrossEnv) (req : CrossingRequest) (fval : ℚ) :
    ∀ (n : Nat) (x : ℚ) (σ : CrossMem),
      (searchLoop env req fval n x σ).2.caller = σ.caller ∧
        (searchLoop env req fval n x σ).2.strategy = σ.strategy := by
  intro n
  induction n with
  | zero => intro x σ; exact ⟨rfl, rfl⟩
  | succ n ih =>
    intro x σ
    cases h : judge env req fval x (trialAt env req x σ) (runTrial env req x σ) with
    | some r => rw [searchLoop_done _ _ _ _ _ _ _ h]; exact ⟨rfl, rfl⟩
    | none => rw [searchLoop_more _ _ _ _ _ _ h]; exact ih _ _

theorem outOfCalls_flagCount (req : CrossingRequest) (fval : ℚ) (σ : CrossMem) :
    (outOfCalls req fval σ).flagCount = 1 := by
  simp [outOfCalls, MnCross.flagCount, MnCross.inProgress]

theorem searchLoop_flagCount (env : CrossEnv) (req : CrossingRequest) (fval : ℚ) :
    ∀ (n : Nat) (x : ℚ) (σ : CrossMem), (searchLoop env req fval n x σ).1.flagCount = 1 := by
  intro n
  induction n with
  | zero => intro x σ; exact outOfCalls_flagCount req fval σ
  | succ n ih =>
    intro x σ
    cases h : judge env req fval x (trialAt env req x σ) (runTrial env req x σ) with
    | some r => rw [searchLoop_done _ _ _ _ _ _ _ h]; exact (judge_some _ _ _ _ _ _ _ h).1
    | none => rw [searchLoop_more _ _ _ _ _ _ h]; exact ih _ _

/-- The call count of the result is the number of trial points recorded, each
iteration records one, and `maxCallsExceeded` is set only when the whole budget was
spent on trials. -/
theorem searchLoop_calls (env : CrossEnv) (req : CrossingRequest) (fval : ℚ) :
    ∀ (n : Nat) (x : ℚ) (σ : CrossMem),
      (searchLoop env req fval n x σ).1.nCalls =
          (searchLoop env req fval n x σ).2.history.length ∧
        (searchLoop env req fval n x σ).2.history.length ≤ σ.history.length + n ∧
        σ.history.length ≤ (searchLoop env req fval n x σ).2.history.length ∧
        (0 < n → σ.history.length < (searchLoop env req fval n x σ).2.history.length) ∧
        ((searchLoop env req fval n x σ).1.maxCallsExceeded = true →
          (searchLoop env req fval n x σ).2.history.length = σ.history.length + n) := by
  intro n
  induction n with
  | zero =>
    intro x σ
    simp [searchLoop_zero, outOfCalls, MnCross.inProgress]
  | succ n ih =>
    intro x σ
    cases h : judge env req fval x (trialAt env req x σ) (runTrial env req x σ) with
    | some r =>
      rw [searchLoop_done _ _ _ _ _ _ _ h]
      obtain ⟨_, h2, _, h4⟩ := judge_some _ _ _ _ _ _ _ h
      refine ⟨h4, ?_, ?_, ?_, ?_⟩
      · simp
      · simp
      · simp
      · intro h5; simp [h2] at h5
    | none =>
      rw [searchLoop_more _ _ _ _ _ _ h]
      obtain ⟨i1, i2, i3, _, i5⟩ := ih
        (nextTrial env req (fval + req.targetDelta) (runTrial env req x σ).history)
        (runTrial env req x σ)
      simp only [runTrial_history, List.length_cons] at i2 i3 i5 ⊢
      exact ⟨i1, by omega, by omega, fun _ => by omega, fun h5 => by have := i5 h5; omega⟩


/-! ## The best trial -/

theorem bestTrial_some (target : ℚ) (h : List TrialPoint) (hne : h ≠ []) :
    ∃ b, bestTrial target h = some b := by
  cases h with
  | nil => exact absurd rfl hne
  | cons t ts =>
    simp only [bestTrial]
    cases bestTrial target ts with
    | none => exact ⟨t, rfl⟩
    | some b => dsimp only; split_ifs <;> exact ⟨_, rfl⟩

theorem bestTrial_spec (target : ℚ) :
    ∀ (h : List TrialPoint) (b : TrialPoint), bestTrial target h = some b →
      b ∈ h ∧ ∀ s ∈ h, |b.fval - target| ≤ |s.fval - target| := by
  intro h
  induction h with
  | nil => intro b hb; simp [bestTrial] at hb
  | cons t ts ih =>
    intro b hb
    simp only [bestTrial] at hb
    cases hts : bestTrial target ts with
    | none =>
      rw [hts] at hb
      simp only [Option.some.injEq] at hb
      subst hb
      have hnil : ts = [] := by
        by_contra hne
        obtain ⟨c, hc⟩ := bestTrial_some target ts hne
        rw [hc] at hts
        exact absurd hts (by simp)
      subst hnil
      simp
    | some c =>
      rw [hts] at hb
      obtain ⟨hc1, hc2⟩ := ih c hts
      dsimp only at hb
      split_ifs at hb with hlt
      · simp only [Option.some.injEq] at hb
        subst hb
        refine ⟨List.mem_cons_self _ _, ?_⟩
        intro s hs
        rcases List.mem_cons.mp hs with rfl | hs
        · exact le_refl _
        · exact le_trans (le_of_lt hlt) (hc2 s hs)
      · simp only [Option.some.injEq] at hb
        subst hb
        refine ⟨List.mem_cons_of_mem _ hc1, ?_⟩
        intro s hs
        rcases List.mem_cons.mp hs with rfl | hs
        · exact not_lt.mp hlt
        · exact hc2 s hs

theorem outOfCalls_best (req : CrossingRequest) (fval : ℚ) (σ : CrossMem)
    (hne : σ.history ≠ []) :
    IsBestTrial (fval + req.targetDelta) σ.history (outOfCalls req fval σ).value := by
  obtain ⟨b, hb⟩ := bestTrial_some (fval + req.targetDelta) σ.history hne
  obtain ⟨h1, h2⟩ := bestTrial_spec _ _ _ hb
  refine ⟨b, h1, ?_, h2⟩
  simp [outOfCalls, MnCross.inProgress, hb]

theorem searchLoop_best (env : CrossEnv) (req : CrossingRequest) (fval : ℚ) :
    ∀ (n : Nat) (x : ℚ) (σ : CrossMem),
      (searchLoop env req fval n x σ).1.maxCallsExceeded = true →
      (searchLoop env req fval n x σ).2.history ≠ [] →
      IsBestTrial (fval + req.targetDelta) (searchLoop env req fval n x σ).2.history
        (searchLoop env req fval n x σ).1.value := by
  intro n
  induction n with
  | zero => intro x σ _ hne; exact outOfCalls_best req fval σ hne
  | succ n ih =>
    intro x σ
    cases h : judge env req fval x (trialAt env req x σ) (runTrial env req x σ) with
    | some r =>
      rw [searchLoop_done _ _ _ _ _ _ _ h]
      intro h5
      simp [(judge_some _ _ _ _ _ _ _ h).2.1] at h5
    | none => rw [searchLoop_more _ _ _ _ _ _ h]; exact ih _ _

/-! ## A new minimum ends the search -/

theorem searchLoop_newMinimum (env : CrossEnv) (req : CrossingRequest) (fval : ℚ) :
    ∀ (n : Nat) (x : ℚ) (σ : CrossMem),
      (∀ t ∈ σ.history, ¬ t.fval < fval - σ.strategy.noise) →
      ∀ t ∈ (searchLoop env req fval n x σ).2.history, t.fval < fval - σ.strategy.noise →
        (searchLoop env req fval n x σ).1.newMinimumFound = true ∧
          (searchLoop env req fval n x σ).1.converged = false := by
  intro n
  induction n with
  | zero => intro x σ hinv t ht hlt; exact absurd hlt (hinv t ht)
  | succ n ih =>
    intro x σ hinv
    by_cases hnew : (trialAt env req x σ).fval < fval - σ.strategy.noise
    · have hj := judge_newMinimum env req fval x (trialAt env req x σ) (runTrial env req x σ)
        (by simpa using hnew)
      rw [searchLoop_done _ _ _ _ _ _ _ hj]
      intro t _ _
      exact ⟨rfl, rfl⟩
    · have hinv2 : ∀ t ∈ (runTrial env req x σ).history,
          ¬ t.fval < fval - (runTrial env req x σ).strategy.noise := by
        intro t ht
        simp only [runTrial_history, List.mem_cons] at ht
        rcases ht with rfl | ht
        · exact hnew
        · exact hinv t ht
      cases h : judge env req fval x (trialAt env req x σ) (runTrial env req x σ) with
      | some r =>
        rw [searchLoop_done _ _ _ _ _ _ _ h]
        intro t ht hlt
        exact absurd hlt (hinv2 t ht)
      | none =>
        rw [searchLoop_more _ _ _ _ _ _ h]
        exact ih _ _ hinv2

/-! ## The step cap -/

theorem stepsCapped_cons (cap s0 : ℚ) (t : TrialPoint) (h : List TrialPoint)
    (hc : StepsCapped cap s0 h)
    (hstep : ∀ t1 rest, h = t1 :: rest → |t.x - t1.x| ≤ cap * |refStep s0 h|) :
    StepsCapped cap s0 (t :: h) := by
  match h, hc, hstep with
  | [], _, _ => trivial
  | [t1], _, hstep => exact hstep t1 [] rfl
  | t1 :: t0 :: rest, hc, hstep => exact ⟨hstep t1 (t0 :: rest) rfl, hc⟩

theorem searchLoop_stepsCapped (env : CrossEnv) (req : CrossingRequest) (fval : ℚ)
    (hcap : 0 ≤ env.stepCapFactor) :
    ∀ (n : Nat) (x : ℚ) (σ : CrossMem),
      StepsCapped env.stepCapFactor req.stepGuess σ.history →
      (∀ t ∈ σ.history, clampTo (σ.caller.limitsOf req.index) t.x = t.x) →
      (∀ t1 rest, σ.history = t1 :: rest →
        |x - t1.x| ≤ env.stepCapFactor * |refStep req.stepGuess σ.history|) →
      StepsCapped env.stepCapFactor req.stepGuess (searchLoop env req fval n x σ).2.history := by
  intro n
  induction n with
  | zero => intro x σ hc _ _; exact hc
  | succ n ih =>
    intro x σ hc hcl hx
    have hc2 : StepsCapped env.stepCapFactor req.stepGuess (runTrial env req x σ).history := by
      rw [runTrial_history]
      apply stepsCapped_cons _ _ _ _ hc
      intro t1 rest hh
      have h1 := hcl t1 (by rw [hh]; exact List.mem_cons_self _ _)
      have h2 := clampTo_abs_sub_le (σ.caller.limitsOf req.index) x t1.x
      rw [h1] at h2
      exact le_trans h2 (hx t1 rest hh)
    cases h : judge env req fval x (trialAt env req x σ) (runTrial env req x σ) with
    | some r => rw [searchLoop_done _ _ _ _ _ _ _ h]; exact hc2
    | none =>
      rw [searchLoop_more _ _ _ _ _ _ h]
      apply ih _ _ hc2
      · intro t ht
        simp only [runTrial_history, List.mem_cons] at ht
        rcases ht with rfl | ht
        · exact clampTo_idem _ _
        · exact hcl t ht
      · intro t1 rest hh
        simp only [runTrial_history, List.cons.injEq] at hh
        obtain ⟨rfl, rfl⟩ := hh
        simp only [runTrial_history, nextTrial]
        exact capStep_abs_sub_le _ _ _ _ hcap


/-! ## Limits -/

theorem searchLoop_congr (env : CrossEnv) (rem2 : MnUserParameterState → Reminimization)
    (req : CrossingRequest) (fval : ℚ) :
    ∀ (n : Nat) (x : ℚ) (σ : CrossMem),
      (∀ v, env.reminimize (σ.caller.fixAt req.index v) = rem2 (σ.caller.fixAt req.index v)) →
      (∀ v, σ.work.fixAt req.index v = σ.caller.fixAt req.index v) →
      searchLoop env req fval n x σ =
        searchLoop { env with reminimize := rem2 } req fval n x σ := by
  intro n
  induction n with
  | zero => intro x σ _ _; rfl
  | succ n ih =>
    intro x σ hrem hwork
    have ht : trialAt { env with reminimize := rem2 } req x σ = trialAt env req x σ := by
      simp only [trialAt, hwork, hrem]
    have hr : runTrial { env with reminimize := rem2 } req x σ = runTrial env req x σ := by
      simp only [runTrial, ht]
    have hj : ∀ t τ, judge { env with reminimize := rem2 } req fval x t τ =
        judge env req fval x t τ := fun _ _ => rfl
    have hn : ∀ tgt h, nextTrial { env with reminimize := rem2 } req tgt h =
        nextTrial env req tgt h := by
      intro tgt h
      cases h <;> rfl
    rw [searchLoop, searchLoop, ht, hr, hj, hn]
    cases judge env req fval x (trialAt env req x σ) (runTrial env req x σ) with
    | some r => rfl
    | none =>
      dsimp only
      apply ih
      · simpa using hrem
      · intro v
        simp only [runTrial_work, runTrial_caller, fixAt_fixAt, hwork]


/-! ## The claims on the crossing search -/

/-- C3.  In every run of the crossing search, if some recorded trial re-minimization
has an objective value below the supplied original minimum `fFval` by more than the
noise tolerance, the result has `newMinimumFound` set and does not have `converged`
set. -/
theorem C3_new_minimum_reported (self : MnFunctionCross) (env : CrossEnv)
    (req : CrossingRequest) (t : TrialPoint) (ht : t ∈ (self.solve env req).2.history)
    (hlt : t.fval < self.fFval - self.fStrategy.noise) :
    (self.solve env req).1.newMinimumFound = true ∧
      (self.solve env req).1.converged = false :=
  searchLoop_newMinimum env req self.fFval req.maxCalls _
    ⟨self.fState, self.fStrategy, self.fState, [], 0⟩ (by simp) t ht hlt

/-- C4.  The result returned by the crossing search has exactly one of the five
terminal flags `converged`, `atLimit`, `newMinimumFound`, `maxCallsExceeded`,
`invalidReminimization` set; this holds for every input, the preconditions of the
claim included. -/
theorem C4_exactly_one_flag (self : MnFunctionCross) (env : CrossEnv) (req : CrossingRequest) :
    (self.solve env req).1.flagCount = 1 :=
  searchLoop_flagCount env req self.fFval req.maxCalls _ _

/-- C6.  With a step cap factor that is not negative, in every run of the crossing
search each step between consecutive trial values is at most `stepCapFactor` times the
previous step, and the step from the first to the second trial is at most
`stepCapFactor` times the initial step guess. -/
theorem C6_steps_capped (self : MnFunctionCross) (env : CrossEnv) (req : CrossingRequest)
    (hcap : 0 ≤ env.stepCapFactor) :
    StepsCapped env.stepCapFactor req.stepGuess (self.solve env req).2.history :=
  searchLoop_stepsCapped env req self.fFval hcap req.maxCalls _
    ⟨self.fState, self.fStrategy, self.fState, [], 0⟩ trivial (by simp) (by simp)

/-- C7.  The crossing search does not write the parameter state or the strategy of the
caller: in the memory after any call both are what the caller supplied; only the
working copy, the history and the failure count are written. -/
theorem C7_caller_state_unchanged (self : MnFunctionCross) (env : CrossEnv)
    (req : CrossingRequest) :
    (self.solve env req).2.caller = self.fState ∧
      (self.solve env req).2.strategy = self.fStrategy :=
  searchLoop_frame env req self.fFval req.maxCalls _
    ⟨self.fState, self.fStrategy, self.fState, [], 0⟩

/-! ## The quadratic scenario, whatever the extrapolator proposes -/

/-- C3 (witness).  The objective `(x - 2)^2` with the stale minimum `x = 4`, value 4,
supplied by the caller: the first trial towards smaller values, at `x = 3`, has the
objective 1 below the supplied minimum, and the result is `newMinimumFound`. -/
theorem C3_witness_stale_minimum :
    (⟨3, 1, true, 1⟩ : TrialPoint) ∈
        ((⟨fun v => (v.headD 0 - 2) ^ 2, ⟨[⟨4, 1, none, none, false⟩]⟩, 4,
          scenarioStrategy⟩ : MnFunctionCross).solve (scenarioEnv 0) ⟨0, -1, 1, 1, 10⟩).2.history ∧
      ((⟨fun v => (v.headD 0 - 2) ^ 2, ⟨[⟨4, 1, none, none, false⟩]⟩, 4,
          scenarioStrategy⟩ : MnFunctionCross).solve (scenarioEnv 0) ⟨0, -1, 1, 1, 10⟩).1.newMinimumFound
        = true ∧
      ((⟨fun v => (v.headD 0 - 2) ^ 2, ⟨[⟨4, 1, none, none, false⟩]⟩, 4,
          scenarioStrategy⟩ : MnFunctionCross).solve (scenarioEnv 0) ⟨0, -1, 1, 1, 10⟩).1.converged
        = false := by
  have hmem : (⟨3, 1, true, 1⟩ : TrialPoint) ∈
      ((⟨fun v => (v.headD 0 - 2) ^ 2, ⟨[⟨4, 1, none, none, false⟩]⟩, 4,
        scenarioStrategy⟩ : MnFunctionCross).solve (scenarioEnv 0) ⟨0, -1, 1, 1, 10⟩).2.history := by
    unfold MnFunctionCross.solve
    rw [searchLoop]
    norm_num [scenarioEnv, scenarioStrategy, judge, runTrial,
      trialAt, firstTrial, MnUserParameterState.valueAt, MnUserParameterState.limitsOf,
      MnUserParameterState.fixAt, fixList, clampTo, beyond, strictlyInside, quadraticRemin,
      dirSign, MnCross.inProgress]
  exact ⟨hmem, C3_new_minimum_reported _ _ _ _ hmem (by norm_num [scenarioStrategy])⟩

/-- C6 (witness).  The quadratic scenario with step cap factor 2 and step guess one
tenth: the steps of the run are capped. -/
theorem C6_witness_cap_two :
    StepsCapped 2 (1 / 10)
      ((scenarioCross none none).solve (scenarioEnv 3) ⟨0, 1, 1 / 10, 1, 10⟩).2.history :=
  C6_steps_capped (scenarioCross none none) (scenarioEnv 3) ⟨0, 1, 1 / 10, 1, 10⟩
    (by norm_num [scenarioEnv])

/-! ## The budget runs out -/

theorem failedTrials_cons (lim : Option ℚ × Option ℚ) (t : TrialPoint) (h : List TrialPoint) :
    failedTrials lim (t :: h) =
      if t.valid = false ∧ strictlyInside lim t.x = true then failedTrials lim h + 1
      else failedTrials lim h := by
  unfold failedTrials
  by_cases hc : t.valid = false ∧ strictlyInside lim t.x = true
  · rw [if_pos hc, List.filter_cons_of_pos (by simp [hc.1, hc.2])]
    rfl
  · rw [if_neg hc, List.filter_cons_of_neg]
    simp only [Bool.and_eq_true, Bool.not_eq_true', not_and, Bool.not_eq_true] at hc ⊢
    exact hc

theorem failedTrials_append_le (lim : Option ℚ × Option ℚ) (l h : List TrialPoint) :
    failedTrials lim h ≤ failedTrials lim (l ++ h) := by
  unfold failedTrials
  rw [List.filter_append, List.length_append]
  omega

theorem runTrial_failures (env : CrossEnv) (req : CrossingRequest) (x : ℚ) (σ : CrossMem)
    (h : σ.failures = failedTrials (σ.caller.limitsOf req.index) σ.history) :
    (runTrial env req x σ).failures =
      failedTrials (σ.caller.limitsOf req.index) (runTrial env req x σ).history := by
  rw [runTrial_history, failedTrials_cons, ← h]
  rfl

/-- The history after a run of the loop extends the history before it. -/
theorem searchLoop_history (env : CrossEnv) (req : CrossingRequest) (fval : ℚ) :
    ∀ (n : Nat) (x : ℚ) (σ : CrossMem),
      ∃ l, (searchLoop env req fval n x σ).2.history = l ++ σ.history := by
  intro n
  induction n with
  | zero => intro x σ; exact ⟨[], rfl⟩
  | succ n ih =>
    intro x σ
    cases h : judge env req fval x (trialAt env req x σ) (runTrial env req x σ) with
    | some r =>
      rw [searchLoop_done _ _ _ _ _ _ _ h]
      exact ⟨[trialAt env req x σ], rfl⟩
    | none =>
      rw [searchLoop_more _ _ _ _ _ _ h]
      obtain ⟨l, hl⟩ := ih
        (nextTrial env req (fval + req.targetDelta) (runTrial env req x σ).history)
        (runTrial env req x σ)
      exact ⟨l ++ [trialAt env req x σ], by rw [hl, runTrial_history]; simp⟩

/-- A trial that meets none of the tests on a single trial, made with a failure count
that stays within the bound, ends nothing. -/
theorem judge_none_of_noTerminalTest (env : CrossEnv) (req : CrossingRequest) (fval x : ℚ)
    (σ : CrossMem)
    (hnt : NoTerminalTest σ.strategy (σ.caller.limitsOf req.index) fval req.targetDelta
      (trialAt env req x σ))
    (hf : (runTrial env req x σ).failures ≤ env.maxFailures) :
    judge env req fval x (trialAt env req x σ) (runTrial env req x σ) = none := by
  obtain ⟨h1, h2, h3⟩ := hnt
  unfold judge
  rw [if_neg (by simpa using h1), if_neg (not_lt.mpr hf), if_neg, if_neg (by simpa using h3)]
  rintro ⟨hb, hlow⟩
  rcases h2 with h2 | h2
  · have := not_strictlyInside_of_beyond _ _ (by simpa using hb)
    rw [trialAt_x] at h2
    rw [this] at h2
    exact Bool.false_ne_true h2
  · exact h2 hlow

/-- A run whose trial points meet none of the tests on a single trial, and whose failed
re-minimizations stay within the bound, spends the whole budget and ends with the result
of a budget that is used up. -/
theorem searchLoop_budget (env : CrossEnv) (req : CrossingRequest) (fval : ℚ) :
    ∀ (n : Nat) (x : ℚ) (σ : CrossMem),
      σ.failures = failedTrials (σ.caller.limitsOf req.index) σ.history →
      (∀ t ∈ (searchLoop env req fval n x σ).2.history,
        NoTerminalTest σ.strategy (σ.caller.limitsOf req.index) fval req.targetDelta t) →
      failedTrials (σ.caller.limitsOf req.index) (searchLoop env req fval n x σ).2.history ≤
        env.maxFailures →
      (searchLoop env req fval n x σ).1 =
          outOfCalls req fval (searchLoop env req fval n x σ).2 ∧
        (searchLoop env req fval n x σ).2.history.length = σ.history.length + n := by
  intro n
  induction n with
  | zero => intro x σ _ _ _; exact ⟨rfl, rfl⟩
  | succ n ih =>
    intro x σ hf hnt hfail
    have hsuf : ∃ l, (searchLoop env req fval (n + 1) x σ).2.history =
        l ++ (runTrial env req x σ).history := by
      cases h : judge env req fval x (trialAt env req x σ) (runTrial env req x σ) with
      | some r => rw [searchLoop_done _ _ _ _ _ _ _ h]; exact ⟨[], rfl⟩
      | none => rw [searchLoop_more _ _ _ _ _ _ h]; exact searchLoop_history _ _ _ _ _ _
    obtain ⟨l, hl⟩ := hsuf
    have hmem : trialAt env req x σ ∈ (searchLoop env req fval (n + 1) x σ).2.history := by
      rw [hl, runTrial_history]
      simp
    have hf1 : (runTrial env req x σ).failures ≤ env.maxFailures := by
      rw [runTrial_failures env req x σ hf]
      refine le_trans ?_ hfail
      rw [hl]
      exact failedTrials_append_le _ _ _
    have hj := judge_none_of_noTerminalTest env req fval x σ (hnt _ hmem) hf1
    rw [searchLoop_more _ _ _ _ _ _ hj] at hnt hfail ⊢
    obtain ⟨i1, i2⟩ := ih _ (runTrial env req x σ) (runTrial_failures env req x σ hf) hnt hfail
    refine ⟨i1, ?_⟩
    rw [i2, runTrial_history, List.length_cons]
    omega

/-! ## A trial beyond a limit -/

/-- The trial points of the quadratic scenario with step guess one tenth and a budget
of 2 calls, most recent first. -/
theorem scenario_budget_two_history :
    ((scenarioCross none none).solve (scenarioEnv 3) ⟨0, 1, 1 / 10, 1, 2⟩).2.history =
      [⟨23 / 10, 9 / 100, true, 1⟩, ⟨21 / 10, 1 / 100, true, 1⟩] := by
  unfold MnFunctionCross.solve
  repeat
    rw [searchLoop]
    norm_num [scenarioCross, scenarioEnv, scenarioState, scenarioStrategy, judge, runTrial,
      trialAt, firstTrial, MnUserParameterState.valueAt, MnUserParameterState.limitsOf,
      MnUserParameterState.fixAt, fixList, clampTo, beyond, strictlyInside, quadraticRemin,
      dirSign, MnCross.inProgress, nextTrial, capStep, refStep, abs_of_nonneg, abs_of_neg,
      outOfCalls, bestTrial]
  rw [searchLoop_zero]

/-- C5.  With a call budget `maxCalls > 0`: the number of re-minimization calls the
search reports is the number of trials it made and is at most `maxCalls`; a result
with `maxCallsExceeded` has spent the whole budget and carries the value of a best
trial (one whose objective is at least as close to the target as that of every
trial); when the budget runs out before a terminal test is met, that is, when no trial
the search made passes the convergence test or the tests for a new minimum or a limit
and the failed re-minimizations stay within their bound, the result has
`maxCallsExceeded` set and `converged` not set, the whole budget is spent and the value
is that of a best trial; and a run that met none of the other four terminal conditions
ends with `maxCallsExceeded`. -/
theorem C5_call_budget (self : MnFunctionCross) (env : CrossEnv) (req : CrossingRequest)
    (hcalls : 0 < req.maxCalls) :
    (self.solve env req).1.nCalls = (self.solve env req).2.history.length ∧
      (self.solve env req).1.nCalls ≤ req.maxCalls ∧
      ((self.solve env req).1.maxCallsExceeded = true →
        (self.solve env req).1.nCalls = req.maxCalls ∧
          IsBestTrial (self.fFval + req.targetDelta) (self.solve env req).2.history
            (self.solve env req).1.value) ∧
      ((∀ t ∈ (self.solve env req).2.history,
          NoTerminalTest self.fStrategy (self.fState.limitsOf req.index) self.fFval
            req.targetDelta t) →
        failedTrials (self.fState.limitsOf req.index) (self.solve env req).2.history ≤
          env.maxFailures →
        (self.solve env req).1.maxCallsExceeded = true ∧
          (self.solve env req).1.converged = false ∧
          (self.solve env req).1.nCalls = req.maxCalls ∧
          IsBestTrial (self.fFval + req.targetDelta) (self.solve env req).2.history
            (self.solve env req).1.value) ∧
      ((self.solve env req).1.converged = false → (self.solve env req).1.atLimit = false →
        (self.solve env req).1.newMinimumFound = false →
        (self.solve env req).1.invalidReminimization = false →
        (self.solve env req).1.maxCallsExceeded = true) := by
  obtain ⟨h1, h2, _, h4, h5⟩ := searchLoop_calls env req self.fFval req.maxCalls
    (firstTrial self.fState req) ⟨self.fState, self.fStrategy, self.fState, [], 0⟩
  have hfc := searchLoop_flagCount env req self.fFval req.maxCalls
    (firstTrial self.fState req) ⟨self.fState, self.fStrategy, self.fState, [], 0⟩
  simp only [List.length_nil, Nat.zero_add] at h2 h4 h5
  have hbest : (self.solve env req).1.maxCallsExceeded = true →
      (self.solve env req).1.nCalls = req.maxCalls ∧
        IsBestTrial (self.fFval + req.targetDelta) (self.solve env req).2.history
          (self.solve env req).1.value := by
    intro hm
    refine ⟨?_, ?_⟩
    · unfold MnFunctionCross.solve at hm ⊢; rw [h1]; exact h5 hm
    · apply searchLoop_best env req self.fFval req.maxCalls _ _ hm
      intro hnil
      have := h4 hcalls
      rw [hnil] at this
      exact absurd this (lt_irrefl _)
  refine ⟨h1, ?_, hbest, ?_, ?_⟩
  · unfold MnFunctionCross.solve; rw [h1]; exact h2
  · intro hnt hfail
    obtain ⟨b1, _⟩ := searchLoop_budget env req self.fFval req.maxCalls
      (firstTrial self.fState req) ⟨self.fState, self.fStrategy, self.fState, [], 0⟩ rfl hnt hfail
    have hm : (self.solve env req).1.maxCallsExceeded = true := by
      unfold MnFunctionCross.solve
      rw [b1]
      rfl
    have hc : (self.solve env req).1.converged = false := by
      unfold MnFunctionCross.solve
      rw [b1]
      rfl
    exact ⟨hm, hc, hbest hm⟩
  · intro c1 c2 c3 c4
    unfold MnFunctionCross.solve at c1 c2 c3 c4 ⊢
    unfold MnCross.flagCount at hfc
    rw [c1, c2, c3, c4] at hfc
    cases hm : (searchLoop env req self.fFval req.maxCalls (firstTrial self.fState req)
      ⟨self.fState, self.fStrategy, self.fState, [], 0⟩).1.maxCallsExceeded with
    | true => rfl
    | false => rw [hm] at hfc; simp at hfc

/-- C5 (witness).  The quadratic scenario with step guess one tenth and a budget of 2
calls: the trials at 21/10 and 23/10 meet no terminal test, and the result has
`maxCallsExceeded` set, `converged` not set and reports 2 calls. -/
theorem C5_witness_budget_two :
    ((scenarioCross none none).solve (scenarioEnv 3) ⟨0, 1, 1 / 10, 1, 2⟩).1.maxCallsExceeded
        = true ∧
      ((scenarioCross none none).solve (scenarioEnv 3) ⟨0, 1, 1 / 10, 1, 2⟩).1.converged
        = false ∧
      ((scenarioCross none none).solve (scenarioEnv 3) ⟨0, 1, 1 / 10, 1, 2⟩).1.nCalls = 2 := by
  have h := (C5_call_budget (scenarioCross none none) (scenarioEnv 3) ⟨0, 1, 1 / 10, 1, 2⟩
    (by decide)).2.2.2.1
    (by
      rw [scenario_budget_two_history]
      intro t ht
      simp only [List.mem_cons, List.mem_singleton, List.not_mem_nil, or_false] at ht
      rcases ht with rfl | rfl <;>
        norm_num [NoTerminalTest, scenarioCross, scenarioStrategy, scenarioState,
          MnUserParameterState.limitsOf, strictlyInside, abs_of_neg])
    (by
      rw [scenario_budget_two_history]
      simp [failedTrials])
  exact ⟨h.1, h.2.1, h.2.2.1⟩

end ROOT.Minuit2

/-! ## Lemmas on the floating-point rounding -/

theorem roundHalfEven_intCast (z : Int) : roundHalfEven (z : ℚ) = z := by
  unfold roundHalfEven
  simp

theorem roundHalfEven_cases (x : ℚ) : roundHalfEven x = ⌊x⌋ ∨
    (roundHalfEven x = ⌊x⌋ + 1 ∧ 1 / 2 ≤ x - ⌊x⌋) := by
  unfold roundHalfEven
  split_ifs with h1 h2 h3
  · exact Or.inl rfl
  · exact Or.inr ⟨rfl, le_of_lt h2⟩
  · exact Or.inl rfl
  · exact Or.inr ⟨rfl, not_lt.mp h1⟩

theorem roundHalfEven_le {x : ℚ} {n : Int} (h : x ≤ n) : roundHalfEven x ≤ n := by
  rcases roundHalfEven_cases x with h1 | ⟨h1, h2⟩
  · rw [h1]
    have h3 : (⌊x⌋ : ℚ) ≤ n := (Int.floor_le x).trans h
    exact_mod_cast h3
  · rw [h1]
    have hlt : ⌊x⌋ < n := by
      have h3 : (⌊x⌋ : ℚ) < n := by linarith
      exact_mod_cast h3
    omega

theorem le_roundHalfEven {x : ℚ} {n : Int} (h : (n : ℚ) ≤ x) : n ≤ roundHalfEven x := by
  have h0 : n ≤ ⌊x⌋ := Int.le_floor.mpr h
  rcases roundHalfEven_cases x with h1 | ⟨h1, _⟩ <;> omega

theorem abs_roundHalfEven_sub_le (x : ℚ) : |(roundHalfEven x : ℚ) - x| ≤ 1 / 2 := by
  have hf := Int.floor_le x
  have hl := Int.lt_floor_add_one x
  unfold roundHalfEven
  split_ifs with h1 h2 h3
  · rw [abs_le]; constructor <;> linarith
  · rw [abs_le]; push_cast; constructor <;> linarith
  · rw [abs_le]; constructor <;> linarith
  · rw [abs_le]; push_cast; constructor <;> linarith

theorem roundHalfEven_eq {x : ℚ} (n : Int) (h1 : (n : ℚ) - 1 / 2 < x) (h2 : x < n + 1 / 2) :
    roundHalfEven x = n := by
  have hf := Int.floor_le x
  have hl := Int.lt_floor_add_one x
  rcases roundHalfEven_cases x with h | ⟨h, h3⟩
  · rw [h]
    have a : (⌊x⌋ : ℚ) < n + 1 := by linarith
    have b : (n : ℚ) - 1 < ⌊x⌋ := by
      by_contra hc
      push_neg at hc
      have hx : roundHalfEven x = ⌊x⌋ := h
      unfold roundHalfEven at hx
      split_ifs at hx with c1 c2 c3
      · linarith
      · omega
      · linarith
      · omega
    have a1 : ⌊x⌋ < n + 1 := by exact_mod_cast a
    have b1 : n - 1 < ⌊x⌋ := by exact_mod_cast b
    omega
  · rw [h]
    have a : (⌊x⌋ : ℚ) < n := by linarith
    have b : (n : ℚ) - 1 < ⌊x⌋ + 1 := by linarith
    have a1 : ⌊x⌋ < n := by exact_mod_cast a
    have b1 : n - 1 < ⌊x⌋ + 1 := by exact_mod_cast b
    omega

theorem log_two_eq {x : ℚ} (k : Int) (h1 : (2 : ℚ) ^ k ≤ x) (h2 : x < (2 : ℚ) ^ (k + 1)) :
    Int.log 2 x = k := by
  have hx : 0 < x := lt_of_lt_of_le (zpow_pos (by norm_num) k) h1
  have a : k ≤ Int.log 2 x := (Int.zpow_le_iff_le_log (by norm_num) hx).mp (by exact_mod_cast h1)
  have b : Int.log 2 x < k + 1 :=
    (Int.lt_zpow_iff_log_lt (by norm_num) hx).mp (by exact_mod_cast h2)
  omega

theorem roundPositive_eq (p : Nat) {x : ℚ} (k : Int) (h1 : (2 : ℚ) ^ k ≤ x)
    (h2 : x < (2 : ℚ) ^ (k + 1)) :
    roundPositive p x =
      (roundHalfEven (x / (2 : ℚ) ^ (k - ((p : Int) - 1))) : ℚ) * (2 : ℚ) ^ (k - ((p : Int) - 1)) := by
  unfold roundPositive
  rw [log_two_eq k h1 h2]

theorem two_zpow_log_le {x : ℚ} (hx : 0 < x) : (2 : ℚ) ^ Int.log 2 x ≤ x := by
  have := Int.zpow_log_le_self (b := 2) (by norm_num) hx
  exact_mod_cast this

theorem lt_two_zpow_log {x : ℚ} : x < (2 : ℚ) ^ (Int.log 2 x + 1) := by
  have := Int.lt_zpow_succ_log_self (b := 2) (by norm_num) x
  exact_mod_cast this

/-- A value whose scaled significand is an integer is not changed by rounding. -/
theorem roundPositive_exact (p : Nat) {x : ℚ} (z : Int)
    (hz : x / (2 : ℚ) ^ (Int.log 2 x - ((p : Int) - 1)) = z) : roundPositive p x = x := by
  unfold roundPositive
  rw [hz, roundHalfEven_intCast, ← hz]
  exact div_mul_cancel₀ _ (zpow_ne_zero _ (by norm_num))

theorem log_two_natCast_lt {p n : Nat} (hn : 0 < n) (h : n < 2 ^ p) :
    Int.log 2 (n : ℚ) ≤ (p : Int) - 1 := by
  rw [Int.log_natCast]
  have : Nat.log 2 n < p := Nat.log_lt_of_lt_pow (by omega) h
  omega

/-- A natural number below `2^p` scaled by a non-positive exponent is an integer. -/
theorem div_two_zpow_nonpos (n : Nat) {e : Int} (he : e ≤ 0) :
    (n : ℚ) / (2 : ℚ) ^ e = ((n * 2 ^ (-e).toNat : Nat) : Int) := by
  obtain ⟨d, rfl⟩ : ∃ d : Nat, e = -(d : Int) := ⟨(-e).toNat, by omega⟩
  simp [zpow_neg]

theorem roundPositive_natCast {p n : Nat} (hn : 0 < n) (h : n < 2 ^ p) :
    roundPositive p (n : ℚ) = n := by
  have hl := log_two_natCast_lt hn h
  exact roundPositive_exact p _ (div_two_zpow_nonpos n (by omega))

theorem roundBinary_natCast {p n : Nat} (h : n < 2 ^ p) : roundBinary p (n : ℚ) = n := by
  unfold roundBinary
  rcases Nat.eq_zero_or_pos n with h0 | h0
  · simp [h0]
  · have : (0 : ℚ) < n := by exact_mod_cast h0
    rw [if_neg (ne_of_gt this), if_pos this]
    exact roundPositive_natCast h0 h

theorem roundBinary_neg (p : Nat) (x : ℚ) : roundBinary p (-x) = -roundBinary p x := by
  unfold roundBinary
  rcases lt_trichotomy x 0 with h | h | h
  · have h1 : ¬ 0 < x := not_lt.mpr (le_of_lt h)
    have h2 : 0 < -x := by linarith
    simp [ne_of_lt h, h1, h2, ne_of_gt h2]
  · simp [h]
  · have h1 : ¬ 0 < -x := by linarith
    have h2 : -x ≠ 0 := by linarith
    simp [ne_of_gt h, h, h1]

theorem roundBinary_intCast {p : Nat} {z : Int} (h : z.natAbs < 2 ^ p) :
    roundBinary p (z : ℚ) = z := by
  rcases Int.natAbs_eq z with hz | hz
  · have e : (z : ℚ) = (z.natAbs : ℚ) := by
      rw [← Int.cast_natCast, ← hz]
    rw [e]; exact roundBinary_natCast h
  · have e : (z : ℚ) = -(z.natAbs : ℚ) := by
      rw [← Int.cast_natCast, ← Int.cast_neg, ← hz]
    rw [e, roundBinary_neg, roundBinary_natCast h]

theorem roundPositive_pos {p : Nat} (hp : 1 ≤ p) {x : ℚ} (hx : 0 < x) :
    0 < roundPositive p x := by
  unfold roundPositive
  have h2 : (0 : ℚ) < (2 : ℚ) ^ (Int.log 2 x - ((p : Int) - 1)) := zpow_pos (by norm_num) _
  refine mul_pos ?_ h2
  have hs : ((1 : Int) : ℚ) ≤ x / (2 : ℚ) ^ (Int.log 2 x - ((p : Int) - 1)) := by
    rw [le_div_iff₀ h2]
    push_cast
    rw [one_mul]
    refine le_trans ?_ (two_zpow_log_le hx)
    exact zpow_le_zpow_right₀ (by norm_num) (by omega)
  have := le_roundHalfEven hs
  have h3 : (1 : ℚ) ≤ (roundHalfEven (x / (2 : ℚ) ^ (Int.log 2 x - ((p : Int) - 1))) : ℚ) := by
    exact_mod_cast this
  linarith

theorem roundBinary_pos {p : Nat} (hp : 1 ≤ p) {x : ℚ} (hx : 0 < x) : 0 < roundBinary p x := by
  unfold roundBinary
  rw [if_neg (ne_of_gt hx), if_pos hx]
  exact roundPositive_pos hp hx

/-- Rounding does not pass a natural number below `2^p`. -/
theorem roundBinary_le_natCast {p n : Nat} {x : ℚ} (hx : 0 < x) (hxn : x ≤ n)
    (h : n < 2 ^ p) : roundBinary p x ≤ n := by
  unfold roundBinary
  rw [if_neg (ne_of_gt hx), if_pos hx]
  have hn : 0 < n := by
    have : (0 : ℚ) < n := lt_of_lt_of_le hx hxn
    exact_mod_cast this
  have hl : Int.log 2 x ≤ (p : Int) - 1 :=
    (Int.log_mono_right hx hxn).trans (log_two_natCast_lt hn h)
  unfold roundPositive
  have h2 : (0 : ℚ) < (2 : ℚ) ^ (Int.log 2 x - ((p : Int) - 1)) := zpow_pos (by norm_num) _
  have hs : x / (2 : ℚ) ^ (Int.log 2 x - ((p : Int) - 1)) ≤
      ((n * 2 ^ (-(Int.log 2 x - ((p : Int) - 1))).toNat : Nat) : Int) := by
    rw [← div_two_zpow_nonpos n (by omega)]
    exact div_le_div_of_nonneg_right hxn (le_of_lt h2)
  have h3 := roundHalfEven_le hs
  have h4 : (roundHalfEven (x / (2 : ℚ) ^ (Int.log 2 x - ((p : Int) - 1))) : ℚ) ≤
      (n : ℚ) / (2 : ℚ) ^ (Int.log 2 x - ((p : Int) - 1)) := by
    rw [div_two_zpow_nonpos n (by omega)]
    exact_mod_cast h3
  calc _ ≤ (n : ℚ) / (2 : ℚ) ^ (Int.log 2 x - ((p : Int) - 1)) *
        (2 : ℚ) ^ (Int.log 2 x - ((p : Int) - 1)) := mul_le_mul_of_nonneg_right h4 (le_of_lt h2)
    _ = n := div_mul_cancel₀ _ (ne_of_gt h2)

/-- The relative error of rounding to `p` bits is at most `2^(-p)`. -/
theorem abs_roundBinary_sub_le (p : Nat) {x : ℚ} (hx : 0 < x) :
    |roundBinary p x - x| ≤ x / 2 ^ p := by
  unfold roundBinary
  rw [if_neg (ne_of_gt hx), if_pos hx]
  unfold roundPositive
  have h2 : (0 : ℚ) < (2 : ℚ) ^ (Int.log 2 x - ((p : Int) - 1)) := zpow_pos (by norm_num) _
  have e : x = x / (2 : ℚ) ^ (Int.log 2 x - ((p : Int) - 1)) *
      (2 : ℚ) ^ (Int.log 2 x - ((p : Int) - 1)) := (div_mul_cancel₀ _ (ne_of_gt h2)).symm
  have hr := abs_roundHalfEven_sub_le (x / (2 : ℚ) ^ (Int.log 2 x - ((p : Int) - 1)))
  have hle : (2 : ℚ) ^ (Int.log 2 x - ((p : Int) - 1)) ≤ x / 2 ^ p * 2 := by
    have h5 : (2 : ℚ) ^ (Int.log 2 x - ((p : Int) - 1)) = (2 : ℚ) ^ Int.log 2 x / 2 ^ p * 2 := by
      rw [zpow_sub₀ (by norm_num), zpow_sub₀ (by norm_num)]
      simp
      field_simp
    rw [h5]
    have := two_zpow_log_le hx
    gcongr
  set s := x / (2 : ℚ) ^ (Int.log 2 x - ((p : Int) - 1)) with hsdef
  set t := (2 : ℚ) ^ (Int.log 2 x - ((p : Int) - 1)) with htdef
  have : (roundHalfEven s : ℚ) * t - x = ((roundHalfEven s : ℚ) - s) * t := by
    rw [sub_mul, ← e]
  rw [this, abs_mul, abs_of_pos h2]
  calc |(roundHalfEven s : ℚ) - s| * t ≤ 1 / 2 * t := mul_le_mul_of_nonneg_right hr (le_of_lt h2)
    _ ≤ 1 / 2 * (x / 2 ^ p * 2) := by gcongr
    _ = x / 2 ^ p := by ring

/-- The rounding of a positive value from its binade `k` and its rounded significand
`n`. -/
theorem roundBinary_eq (p : Nat) {x : ℚ} (k n : Int) (h1 : (2 : ℚ) ^ k ≤ x)
    (h2 : x < (2 : ℚ) ^ (k + 1))
    (h3 : (n : ℚ) - 1 / 2 < x / (2 : ℚ) ^ (k - ((p : Int) - 1)))
    (h4 : x / (2 : ℚ) ^ (k - ((p : Int) - 1)) < n + 1 / 2) :
    roundBinary p x = (n : ℚ) * (2 : ℚ) ^ (k - ((p : Int) - 1)) := by
  have hx : 0 < x := lt_of_lt_of_le (zpow_pos (by norm_num) k) h1
  unfold roundBinary
  rw [if_neg (ne_of_gt hx), if_pos hx, roundPositive_eq p k h1 h2, roundHalfEven_eq n h3 h4]

theorem roundBinary_zero (p : Nat) : roundBinary p 0 = 0 := by
  unfold roundBinary
  rw [if_pos rfl]

theorem roundBinary_nonneg {p : Nat} (hp : 1 ≤ p) {x : ℚ} (hx : 0 ≤ x) :
    0 ≤ roundBinary p x := by
  rcases eq_or_lt_of_le hx with h | h
  · rw [← h, roundBinary_zero]
  · exact le_of_lt (roundBinary_pos hp h)

/-- The relative error of rounding to `p` bits is at most `2^(-p)`, also at zero. -/
theorem abs_roundBinary_sub_le_of_nonneg (p : Nat) {x : ℚ} (hx : 0 ≤ x) :
    |roundBinary p x - x| ≤ x / 2 ^ p := by
  rcases eq_or_lt_of_le hx with h | h
  · rw [← h, roundBinary_zero]
    simp
  · exact abs_roundBinary_sub_le p h

theorem toFloat_natCast {n : Nat} (h : n < 2 ^ 24) : toFloat (n : ℚ) = n :=
  roundBinary_natCast h

theorem toFloat_intCast {z : Int} (h : z.natAbs < 2 ^ 24) : toFloat (z : ℚ) = z :=
  roundBinary_intCast h

theorem toDouble_natCast {n : Nat} (h : n < 2 ^ 53) : toDouble (n : ℚ) = n :=
  roundBinary_natCast h

/-- The value a `Size_t` holds after a `Double_t` operation with exact result `x` is
within the relative error `2^(-23)` of `x`. -/
theorem abs_toFloat_toDouble_sub_le {x : ℚ} (hx : 0 ≤ x) :
    |toFloat (toDouble x) - x| ≤ x / 2 ^ 23 := by
  have h1 := abs_roundBinary_sub_le_of_nonneg 53 hx
  have h0 : 0 ≤ toDouble x := roundBinary_nonneg (by norm_num) hx
  have h2 := abs_roundBinary_sub_le_of_nonneg 24 h0
  unfold toFloat
  unfold toDouble at h0 h2 ⊢
  rw [abs_le] at h1 h2 ⊢
  constructor
  · have : roundBinary 53 x / 2 ^ 24 ≤ (x + x / 2 ^ 53) / 2 ^ 24 := by
      apply div_le_div_of_nonneg_right _ (by norm_num)
      linarith
    have e : x / 2 ^ 53 + (x + x / 2 ^ 53) / 2 ^ 24 ≤ x / 2 ^ 23 := by
      have : x / 2 ^ 53 + (x + x / 2 ^ 53) / 2 ^ 24 = x * (1 / 2 ^ 53 + (1 + 1 / 2 ^ 53) / 2 ^ 24) := by
        ring
      rw [this, div_eq_mul_one_div x]
      apply mul_le_mul_of_nonneg_left _ hx
      norm_num
    linarith
  · have : roundBinary 53 x / 2 ^ 24 ≤ (x + x / 2 ^ 53) / 2 ^ 24 := by
      apply div_le_div_of_nonneg_right _ (by norm_num)
      linarith
    have e : x / 2 ^ 53 + (x + x / 2 ^ 53) / 2 ^ 24 ≤ x / 2 ^ 23 := by
      have : x / 2 ^ 53 + (x + x / 2 ^ 53) / 2 ^ 24 = x * (1 / 2 ^ 53 + (1 + 1 / 2 ^ 53) / 2 ^ 24) := by
        ring
      rw [this, div_eq_mul_one_div x]
      apply mul_le_mul_of_nonneg_left _ hx
      norm_num
    linarith

/-- A `Size_t` holding a `Double_t` result that is at most a natural number below
`2^24` is at most that number. -/
theorem toFloat_toDouble_le_natCast {n : Nat} {x : ℚ} (hx : 0 < x) (hxn : x ≤ n)
    (h : n < 2 ^ 24) : toFloat (toDouble x) ≤ n := by
  have h1 : toDouble x ≤ n := roundBinary_le_natCast hx hxn (lt_trans h (by norm_num))
  have h0 : 0 < toDouble x := roundBinary_pos (by norm_num) hx
  exact roundBinary_le_natCast h0 h1 h

theorem toDouble_sixty_sevenths :
    toDouble (60 / 7) = 4825285315039817 / 562949953421312 := by
  unfold toDouble
  rw [roundBinary_eq 53 3 4825285315039817 (by norm_num) (by norm_num) (by norm_num)
    (by norm_num)]
  norm_num

theorem toFloat_sixty_sevenths :
    toFloat (4825285315039817 / 562949953421312) = 4493897 / 524288 := by
  unfold toFloat
  rw [roundBinary_eq 24 3 8987794 (by norm_num) (by norm_num) (by norm_num)
    (by norm_num)]
  norm_num

theorem toDouble_third : toDouble (1 / 3) = 6004799503160661 / 18014398509481984 := by
  unfold toDouble
  rw [roundBinary_eq 53 (-2) 6004799503160661 (by norm_num) (by norm_num) (by norm_num)
    (by norm_num)]
  norm_num

/-! ## Lemmas on the canvas constructors -/

theorem requests_append (a b : List GuiCall) : requests (a ++ b) = requests a ++ requests b := by
  induction a with
  | nil => rfl
  | cons c cs ih => cases c <;> simp [requests, ih]

theorem requests_menuCalls (c : TCanvas) : requests (menuCalls c) = [] := by
  unfold menuCalls
  split_ifs <;> simp [requests, requests_append]

theorem getWindowId_kMenuBar (c : TCanvas) : c.getWindowId.kMenuBar = c.kMenuBar := by
  unfold TCanvas.getWindowId
  split
  · split_ifs <;> rfl
  · rfl

theorem scaleRealSize_kMenuBar (c : TCanvas) : c.scaleRealSize.kMenuBar = c.kMenuBar := by
  unfold TCanvas.scaleRealSize
  split_ifs <;> rfl

theorem setupMode_kMenuBar (g : Globals) (c : TCanvas) :
    (c.setupMode g).kMenuBar = c.kMenuBar := by
  unfold TCanvas.setupMode TCanvas.SetBatch
  split_ifs
  · rfl
  · rfl
  · rfl
  · split <;> rfl

theorem Build_requests (g : Globals) (c : TCanvas) (w : World) :
    requests (c.Build g w).2.calls = requests w.calls := by
  unfold TCanvas.Build
  split_ifs <;> simp [requests, requests_append, requests_menuCalls]

theorem Build_kMenuBar (g : Globals) (c : TCanvas) (w : World) :
    (c.Build g w).1.kMenuBar = c.kMenuBar := by
  unfold TCanvas.Build
  split_ifs <;>
    first
    | exact getWindowId_kMenuBar c
    | (show (TCanvas.setupMode g c.getWindowId.scaleRealSize).kMenuBar = c.kMenuBar
       rw [setupMode_kMenuBar, scaleRealSize_kMenuBar, getWindowId_kMenuBar])

theorem CreatePainter_kMenuBar (g : Globals) (c : TCanvas) :
    (c.CreatePainter g).kMenuBar = c.kMenuBar := by
  unfold TCanvas.CreatePainter
  split_ifs <;> rfl

theorem finishConstructor_requests (g : Globals) (c : TCanvas) (w : World)
    (name title : String) :
    requests (finishConstructor g c w name title).2.calls = requests w.calls := by
  unfold finishConstructor TCanvas.SetTitle
  simp only [requests_append, Build_requests]
  split_ifs <;> simp [requests, requests_append]

theorem finishConstructor_kMenuBar (g : Globals) (c : TCanvas) (w : World)
    (name title : String) :
    (finishConstructor g c w name title).1.kMenuBar = c.kMenuBar := by
  unfold finishConstructor TCanvas.SetTitle
  simp only [Build_kMenuBar]
  exact CreatePainter_kMenuBar g c

theorem normalModeSetup_requests (g : Globals) (c : TCanvas) (w : World) (imp : TCanvasImp) :
    requests (normalModeSetup g c w imp).2.calls = requests w.calls := by
  unfold normalModeSetup
  dsimp only
  split_ifs <;> simp [requests, requests_append]

theorem normalModeSetup_kMenuBar (g : Globals) (c : TCanvas) (w : World) (imp : TCanvasImp) :
    (normalModeSetup g c w imp).1.kMenuBar = c.kMenuBar := by
  unfold normalModeSetup
  dsimp only
  split_ifs <;> rfl

theorem deleteOld_calls (w : World) (name : String) : (deleteOld w name).calls = w.calls := by
  unfold deleteOld
  split
  · split_ifs <;> rfl
  · rfl

theorem truncate_intCast (z : Int) : truncate (z : ℚ) = z := by
  unfold truncate
  split_ifs <;> simp

/-- C9.  In non-batch mode with screen factor 1, when the constructor body runs (the
call is not taken over by the `gThreadXAR` hook), `Constructor(name, title, form)`
with `2 ≤ |form| ≤ 20` makes exactly one request for a canvas implementation, of size
500 x 500 at position `(10 * |form|, 10 * |form|)`, and the `kMenuBar` bit of the
canvas is set if and only if `form ≥ 0`. -/
theorem C9_form_geometry (g : Globals) (self : TCanvas) (w : World) (name title : String)
    (form : Int) (hxar : g.threadXAR = false) (hbatch : g.isBatch = false)
    (hcx : g.screenFactor = 1) (h2 : 2 ≤ |form|) (h20 : |form| ≤ 20) :
    requests (self.ConstructorForm g w name title form).2.calls =
        requests w.calls ++ [(some (10 * |form|, 10 * |form|), 500, 500)] ∧
      ((self.ConstructorForm g w name title form).1.kMenuBar = true ↔ 0 ≤ form) := by
  have hform1 : (if form < 0 then toInt32 (-form) else form) = |form| := by
    have := abs_le.mp h20
    split_ifs with h
    · rw [abs_of_neg h]; unfold toInt32; omega
    · rw [abs_of_nonneg (not_lt.mp h)]
  have hne1 : ¬ (|form| < 1 ∨ |form| > 20) := by omega
  have hne2 : |form| ≠ 1 := by omega
  have hz : toInt32 (|form| * 10) = 10 * |form| := by
    unfold toInt32
    omega
  have hpos : toInt32 (truncate (toFloat (1 * toFloat ((toInt32 (|form| * 10) : Int) : ℚ)))) =
      10 * |form| := by
    rw [hz, toFloat_intCast (by omega), one_mul, toFloat_intCast (by omega), truncate_intCast]
    unfold toInt32
    omega
  have hsize : toUInt32 (truncate (toFloat (1 * toFloat ((500 : Int) : ℚ)))) = 500 := by
    rw [toFloat_intCast (by decide), one_mul, toFloat_intCast (by decide), truncate_intCast]
    rfl
  unfold TCanvas.ConstructorForm
  simp only [hxar, hbatch, hcx, hform1, hne1, hne2, if_false, Bool.false_eq_true]
  cases hc : (if g.isWebDisplay = true then g.batchFactory else g.guiFactory) with
  | none =>
    simp only [requests_append, deleteOld_calls, requests, hpos, hsize, true_and]
    by_cases hf : form < 0
    · simp [hf]
    · simp [hf, not_lt.mp hf]
  | some imp =>
    simp only [finishConstructor_requests, finishConstructor_kMenuBar,
      normalModeSetup_requests, normalModeSetup_kMenuBar, requests_append, deleteOld_calls,
      requests, hpos, hsize, true_and]
    by_cases hf : form < 0
    · simp [hf]
    · simp [hf, not_lt.mp hf]

theorem scaleRealSize_geometry (c : TCanvas) :
    c.scaleRealSize.fCw = c.fCw ∧ c.scaleRealSize.fCh = c.fCh ∧
      c.scaleRealSize.fBatch = c.fBatch ∧
      c.scaleRealSize.fWindowWidth = c.fWindowWidth ∧
      c.scaleRealSize.fWindowHeight = c.fWindowHeight ∧
      c.scaleRealSize.fWindowTopX = c.fWindowTopX ∧
      c.scaleRealSize.fWindowTopY = c.fWindowTopY := by
  unfold TCanvas.scaleRealSize
  split_ifs <;> exact ⟨rfl, rfl, rfl, rfl, rfl, rfl, rfl⟩

theorem setupMode_batch (g : Globals) (c : TCanvas) (hb : c.fBatch = true) :
    (c.setupMode g).fCw = (c.fCw + (2 ^ 32 - 4)) % 2 ^ 32 ∧
      (c.setupMode g).fCh = (c.fCh + (2 ^ 32 - 28)) % 2 ^ 32 ∧
      (c.setupMode g).fWindowWidth = c.fWindowWidth ∧
      (c.setupMode g).fWindowHeight = c.fWindowHeight ∧
      (c.setupMode g).fWindowTopX = c.fWindowTopX ∧
      (c.setupMode g).fWindowTopY = c.fWindowTopY := by
  unfold TCanvas.setupMode
  rw [if_pos (by simpa [TCanvas.IsBatch] using hb)]
  exact ⟨rfl, rfl, rfl, rfl, rfl, rfl⟩

/-- In batch mode, with an implementation whose `InitWindow` gives a window identifier,
`Build` takes the decoration off the canvas size and leaves the window geometry. -/
theorem Build_batch (g : Globals) (c : TCanvas) (w : World) (imp : TCanvasImp)
    (hid : c.fCanvasID = -1) (himp : c.fCanvasImp = some imp) (hwin : imp.windowId ≠ -1)
    (hb : c.fBatch = true) :
    (c.Build g w).1.fCw = (c.fCw + (2 ^ 32 - 4)) % 2 ^ 32 ∧
      (c.Build g w).1.fCh = (c.fCh + (2 ^ 32 - 28)) % 2 ^ 32 ∧
      (c.Build g w).1.fWindowWidth = c.fWindowWidth ∧
      (c.Build g w).1.fWindowHeight = c.fWindowHeight ∧
      (c.Build g w).1.fWindowTopX = c.fWindowTopX ∧
      (c.Build g w).1.fWindowTopY = c.fWindowTopY := by
  have h1 : c.getWindowId = { c with fCanvasID := imp.windowId } := by
    unfold TCanvas.getWindowId
    rw [himp]
    simp only [hid, if_true]
  have h2 : c.getWindowId.fCanvasID ≠ -1 := by rw [h1]; exact hwin
  have h3 : c.getWindowId.scaleRealSize.fBatch = true := by
    rw [(scaleRealSize_geometry _).2.2.1, h1]; exact hb
  obtain ⟨s1, s2, _, s4, s5, s6, s7⟩ := scaleRealSize_geometry c.getWindowId
  obtain ⟨m1, m2, m3, m4, m5, m6⟩ := setupMode_batch g _ h3
  unfold TCanvas.Build
  rw [if_neg h2]
  refine ⟨?_, ?_, ?_, ?_, ?_, ?_⟩
  · show (TCanvas.setupMode g c.getWindowId.scaleRealSize).fCw = _
    rw [m1, s1, h1]
  · show (TCanvas.setupMode g c.getWindowId.scaleRealSize).fCh = _
    rw [m2, s2, h1]
  · show (TCanvas.setupMode g c.getWindowId.scaleRealSize).fWindowWidth = _
    rw [m3, s4, h1]
  · show (TCanvas.setupMode g c.getWindowId.scaleRealSize).fWindowHeight = _
    rw [m4, s5, h1]
  · show (TCanvas.setupMode g c.getWindowId.scaleRealSize).fWindowTopX = _
    rw [m5, s6, h1]
  · show (TCanvas.setupMode g c.getWindowId.scaleRealSize).fWindowTopY = _
    rw [m6, s7, h1]

theorem CreatePainter_geometry (g : Globals) (c : TCanvas) :
    (c.CreatePainter g).fCw = c.fCw ∧ (c.CreatePainter g).fCh = c.fCh ∧
      (c.CreatePainter g).fBatch = c.fBatch ∧
      (c.CreatePainter g).fCanvasID = c.fCanvasID ∧
      (c.CreatePainter g).fCanvasImp = c.fCanvasImp ∧
      (c.CreatePainter g).fWindowWidth = c.fWindowWidth ∧
      (c.CreatePainter g).fWindowHeight = c.fWindowHeight ∧
      (c.CreatePainter g).fWindowTopX = c.fWindowTopX ∧
      (c.CreatePainter g).fWindowTopY = c.fWindowTopY := by
  unfold TCanvas.CreatePainter
  split_ifs <;> exact ⟨rfl, rfl, rfl, rfl, rfl, rfl, rfl, rfl, rfl⟩

/-- The end of a constructor in batch mode: the canvas size loses the decoration, the
window geometry stays. -/
theorem finishConstructor_batch (g : Globals) (c : TCanvas) (w : World) (name title : String)
    (imp : TCanvasImp) (hid : c.fCanvasID = -1) (himp : c.fCanvasImp = some imp)
    (hwin : imp.windowId ≠ -1) (hb : c.fBatch = true) :
    (finishConstructor g c w name title).1.fCw = (c.fCw + (2 ^ 32 - 4)) % 2 ^ 32 ∧
      (finishConstructor g c w name title).1.fCh = (c.fCh + (2 ^ 32 - 28)) % 2 ^ 32 ∧
      (finishConstructor g c w name title).1.fWindowWidth = c.fWindowWidth ∧
      (finishConstructor g c w name title).1.fWindowHeight = c.fWindowHeight ∧
      (finishConstructor g c w name title).1.fWindowTopX = c.fWindowTopX ∧
      (finishConstructor g c w name title).1.fWindowTopY = c.fWindowTopY := by
  obtain ⟨p1, p2, p3, p4, p5, p6, p7, p8, p9⟩ := CreatePainter_geometry g c
  have hB := Build_batch g
    { (c.CreatePainter g) with fName := GetNewCanvasName g w (some name), fTitle := title }
    (if (c.CreatePainter g).fCanvasImp.isSome = true then
        { w with calls := w.calls ++ [GuiCall.setWindowTitle title] }
      else w) imp
    (by show (c.CreatePainter g).fCanvasID = -1; rw [p4]; exact hid)
    (by show (c.CreatePainter g).fCanvasImp = some imp; rw [p5]; exact himp) hwin
    (by show (c.CreatePainter g).fBatch = true; rw [p3]; exact hb)
  obtain ⟨b1, b2, b3, b4, b5, b6⟩ := hB
  unfold finishConstructor TCanvas.SetTitle
  refine ⟨?_, ?_, ?_, ?_, ?_, ?_⟩
  · exact b1.trans (by show ((c.CreatePainter g).fCw + _) % _ = _; rw [p1])
  · exact b2.trans (by show ((c.CreatePainter g).fCh + _) % _ = _; rw [p2])
  · exact b3.trans p6
  · exact b4.trans p7
  · exact b5.trans p8
  · exact b6.trans p9

/-- C10.  In batch mode, when the constructor body runs (the call is not taken over
by the `gThreadXAR` hook), the batch implementation is created and `InitWindow` returns
an identifier other than -1: for `Int_t` arguments `ww ≥ 4` and `wh ≥ 28`,
`Constructor(name, title, ww, wh)` leaves the window size equal to the arguments with
the top-left corner at (0, 0), and the canvas size equal to the window size minus the
decoration, `fCw = ww - 4` and `fCh = wh - 28`. -/
theorem C10_batch_size (g : Globals) (self : TCanvas) (w : World) (name title : String)
    (ww wh : Int) (imp : TCanvasImp) (hxar : g.threadXAR = false) (hbatch : g.isBatch = true)
    (himp : g.batchFactory = some imp) (hwin : imp.windowId ≠ -1)
    (hw : 4 ≤ ww) (hh : 28 ≤ wh) (hw32 : ww < 2 ^ 31) (hh32 : wh < 2 ^ 31) :
    ((self.ConstructorSize g w name title ww wh).1.fWindowWidth : Int) = ww ∧
      ((self.ConstructorSize g w name title ww wh).1.fWindowHeight : Int) = wh ∧
      (self.ConstructorSize g w name title ww wh).1.fWindowTopX = 0 ∧
      (self.ConstructorSize g w name title ww wh).1.fWindowTopY = 0 ∧
      ((self.ConstructorSize g w name title ww wh).1.fCw : Int) = ww - 4 ∧
      ((self.ConstructorSize g w name title ww wh).1.fCh : Int) = wh - 28 := by
  have hww : ¬ ww < 0 := by omega
  have hwh : ¬ wh ≤ 0 := by omega
  have huw : (toUInt32 ww : Int) = ww := by unfold toUInt32; omega
  have huh : (toUInt32 wh : Int) = wh := by unfold toUInt32; omega
  unfold TCanvas.ConstructorSize
  simp only [hxar, hbatch, himp, hww, hwh, if_false, if_true, Bool.false_eq_true]
  obtain ⟨f1, f2, f3, f4, f5, f6⟩ := finishConstructor_batch g
    { ({ ({ self.Init g with kMenuBar := true } : TCanvas) with
          fCw := toUInt32 ww, fCh := toUInt32 wh, fCanvasID := -1 } : TCanvas) with
      fWindowTopX := 0, fWindowTopY := 0, fWindowWidth := toUInt32 ww,
      fWindowHeight := toUInt32 wh, fCw := toUInt32 ww, fCh := toUInt32 wh,
      fCanvasImp := some imp, fBatch := true }
    { deleteOld w name with
      calls := (deleteOld w name).calls ++
        [GuiCall.createCanvasImp true name none (toUInt32 ww) (toUInt32 wh)] }
    name title imp rfl rfl hwin rfl
  refine ⟨?_, ?_, ?_, ?_, ?_, ?_⟩
  · exact (congrArg Nat.cast f3).trans huw
  · exact (congrArg Nat.cast f4).trans huh
  · exact f5
  · exact f6
  · rw [show ((_ : TCanvas × World).1.fCw) = _ from f1]
    show ((toUInt32 ww + (2 ^ 32 - 4)) % 2 ^ 32 : Nat) = (ww - 4 : Int)
    omega
  · rw [show ((_ : TCanvas × World).1.fCh) = _ from f2]
    show ((toUInt32 wh + (2 ^ 32 - 28)) % 2 ^ 32 : Nat) = (wh - 28 : Int)
    omega

/-- C9 (witness).  In the sample session without batch mode, form 5 requests a
500 x 500 canvas at (50, 50) with the menu bar, and form -2 a 500 x 500 canvas at
(20, 20) without it. -/
theorem C9_witness_forms :
    (requests (blankCanvas.ConstructorForm (sampleGlobals false) emptyWorld "c" "t" 5).2.calls =
        [(some (50, 50), 500, 500)] ∧
      (blankCanvas.ConstructorForm (sampleGlobals false) emptyWorld "c" "t" 5).1.kMenuBar = true) ∧
    (requests (blankCanvas.ConstructorForm (sampleGlobals false) emptyWorld "c" "t" (-2)).2.calls =
        [(some (20, 20), 500, 500)] ∧
      (blankCanvas.ConstructorForm (sampleGlobals false) emptyWorld "c" "t" (-2)).1.kMenuBar
        = false) := by
  have h5 := C9_form_geometry (sampleGlobals false) blankCanvas emptyWorld "c" "t" 5 rfl rfl rfl
    (by norm_num) (by norm_num)
  have h2 := C9_form_geometry (sampleGlobals false) blankCanvas emptyWorld "c" "t" (-2) rfl rfl
    rfl (by norm_num) (by norm_num)
  refine ⟨⟨?_, ?_⟩, ?_, ?_⟩
  · rw [h5.1]; norm_num [emptyWorld, requests]
  · exact h5.2.mpr (by norm_num)
  · rw [h2.1]; norm_num [emptyWorld, requests]
  · cases hk : (blankCanvas.ConstructorForm (sampleGlobals false) emptyWorld "c" "t"
      (-2)).1.kMenuBar with
    | false => rfl
    | true => exact absurd (h2.2.mp hk) (by norm_num)

/-- C10 (witness).  In the sample session in batch mode, a canvas constructed with
window size 600 x 400 has that window size at (0, 0) and the canvas size 596 x 372. -/
theorem C10_witness_batch :
    (((blankCanvas.ConstructorSize (sampleGlobals true) emptyWorld "c" "t" 600 400).1.fWindowWidth
        : Nat) : Int) = 600 ∧
      (((blankCanvas.ConstructorSize (sampleGlobals true) emptyWorld "c" "t" 600 400).1.fWindowHeight
        : Nat) : Int) = 400 ∧
      (blankCanvas.ConstructorSize (sampleGlobals true) emptyWorld "c" "t" 600 400).1.fWindowTopX
        = 0 ∧
      (blankCanvas.ConstructorSize (sampleGlobals true) emptyWorld "c" "t" 600 400).1.fWindowTopY
        = 0 ∧
      (((blankCanvas.ConstructorSize (sampleGlobals true) emptyWorld "c" "t" 600 400).1.fCw
        : Nat) : Int) = 600 - 4 ∧
      (((blankCanvas.ConstructorSize (sampleGlobals true) emptyWorld "c" "t" 600 400).1.fCh
        : Nat) : Int) = 400 - 28 :=
  C10_batch_size (sampleGlobals true) blankCanvas emptyWorld "c" "t" 600 400 sampleImp rfl rfl
    rfl (by decide) (by decide) (by decide) (by decide) (by decide)

/-! ## Lemmas on `Resize` and `Size` -/

theorem readGeometry_batch (g : Globals) (c : TCanvas) (hb : c.fBatch = true) :
    c.readGeometry g = c := by
  unfold TCanvas.readGeometry
  rw [if_neg (by simp [TCanvas.IsBatch, hb])]

/-- What `Resize` does to a batch canvas with a window identifier when the body runs. -/
theorem Resize_batch (g : Globals) (lineProcessing cmdThread : Bool) (c : TCanvas)
    (hb : c.fBatch = true) (hid : c.fCanvasID ≠ -1)
    (hrun : lineProcessing = true ∨ cmdThread = true) :
    TCanvas.Resize g lineProcessing cmdThread c = c.fitUserSize.autoRealSize := by
  unfold TCanvas.Resize
  rw [if_neg hid, if_neg (by rcases hrun with h | h <;> simp [h]), readGeometry_batch g c hb]

/-- What `Size` does to a batch canvas with a window identifier when the body of
`Resize` runs. -/
theorem Size_batch (g : Globals) (lineProcessing cmdThread : Bool) (c : TCanvas)
    (xsize ysize : ℚ) (hb : c.fBatch = true) (hid : c.fCanvasID ≠ -1)
    (hrun : lineProcessing = true ∨ cmdThread = true) :
    TCanvas.Size g lineProcessing cmdThread c xsize ysize =
      ({ c with fXsizeUser := xsize, fYsizeUser := ysize } : TCanvas).fitUserSize.autoRealSize :=
  Resize_batch g lineProcessing cmdThread { c with fXsizeUser := xsize, fYsizeUser := ysize }
    hb hid hrun

theorem autoRealSize_size (c : TCanvas) :
    c.autoRealSize.fCw = c.fCw ∧ c.autoRealSize.fCh = c.fCh := by
  unfold TCanvas.autoRealSize
  split_ifs <;> exact ⟨rfl, rfl⟩

theorem fitUserSize_size (c : TCanvas) (hx : c.fXsizeUser ≠ 0) (hy : c.fYsizeUser ≠ 0) :
    c.fitUserSize.fCw = (fitSize c.fCw c.fCh (toFloat (c.fXsizeUser / c.fYsizeUser))).1 ∧
      c.fitUserSize.fCh = (fitSize c.fCw c.fCh (toFloat (c.fXsizeUser / c.fYsizeUser))).2 := by
  unfold TCanvas.fitUserSize
  rw [if_pos ⟨hx, hy⟩]
  exact ⟨rfl, rfl⟩

/-- The pixel size after `Size` on a batch canvas with a window identifier, with both
user sizes non-zero and the body of `Resize` running, is what `fitSize` computes. -/
theorem Size_batch_size (g : Globals) (lineProcessing cmdThread : Bool) (c : TCanvas)
    (xsize ysize : ℚ) (hb : c.fBatch = true) (hid : c.fCanvasID ≠ -1)
    (hrun : lineProcessing = true ∨ cmdThread = true) (hx : xsize ≠ 0) (hy : ysize ≠ 0) :
    (TCanvas.Size g lineProcessing cmdThread c xsize ysize).fCw =
        (fitSize c.fCw c.fCh (toFloat (xsize / ysize))).1 ∧
      (TCanvas.Size g lineProcessing cmdThread c xsize ysize).fCh =
        (fitSize c.fCw c.fCh (toFloat (xsize / ysize))).2 := by
  rw [Size_batch g lineProcessing cmdThread c xsize ysize hb hid hrun]
  obtain ⟨a1, a2⟩ := autoRealSize_size
    ({ c with fXsizeUser := xsize, fYsizeUser := ysize } : TCanvas).fitUserSize
  obtain ⟨f1, f2⟩ := fitUserSize_size { c with fXsizeUser := xsize, fYsizeUser := ysize } hx hy
  exact ⟨a1.trans f1, a2.trans f2⟩

theorem toUInt32_truncate (q : ℚ) (h0 : 0 ≤ q) (h32 : q < 2 ^ 32) :
    toUInt32 (truncate q) = ⌊q⌋₊ := by
  have hf0 : 0 ≤ ⌊q⌋ := Int.floor_nonneg.mpr h0
  have hf32 : ⌊q⌋ < 2 ^ 32 := by
    rw [Int.floor_lt]
    exact_mod_cast h32
  unfold toUInt32 truncate
  rw [if_pos h0, Int.emod_eq_of_lt hf0 hf32]
  rfl

/-- The branch of `fitSize` for a ratio below 1 keeps the ratio up to the rounding of
the `Double_t` operations: the size is the full width with the height
`floor(cw / rxy)` when that fits, and the full height with the width `floor(ch * rxy)`
otherwise. -/
theorem fitSize_ratio_below_one (cw ch : Nat) (rxy : ℚ) (h0 : 0 < rxy) (h1 : rxy < 1)
    (hcw : cw < 2 ^ 32) (hch : ch < 2 ^ 32) (h32 : toDouble ((cw : ℚ) / rxy) < 2 ^ 32) :
    fitSize cw ch rxy =
      if ⌊toDouble ((cw : ℚ) / rxy)⌋₊ ≤ ch then (cw, ⌊toDouble ((cw : ℚ) / rxy)⌋₊)
      else (⌊toDouble ((ch : ℚ) * rxy)⌋₊, ch) := by
  have hx0 : 0 ≤ (cw : ℚ) / rxy := div_nonneg (Nat.cast_nonneg _) (le_of_lt h0)
  have hq0 : 0 ≤ toDouble ((cw : ℚ) / rxy) := roundBinary_nonneg (by norm_num) hx0
  have hT := toUInt32_truncate _ hq0 h32
  unfold fitSize
  rw [if_pos h1]
  simp only [hT]
  by_cases hfit : ⌊toDouble ((cw : ℚ) / rxy)⌋₊ ≤ ch
  · rw [if_pos hfit]
    simp [not_lt.mpr hfit]
  · rw [if_neg hfit]
    have hgt : ch < ⌊toDouble ((cw : ℚ) / rxy)⌋₊ := not_le.mp hfit
    have hch1 : ((ch : ℚ) + 1) ≤ toDouble ((cw : ℚ) / rxy) := by
      have := Nat.floor_le hq0
      have h2 : ((ch + 1 : ℕ) : ℚ) ≤ (⌊toDouble ((cw : ℚ) / rxy)⌋₊ : ℚ) := by exact_mod_cast hgt
      push_cast at h2
      linarith
    have herr := abs_roundBinary_sub_le_of_nonneg 53 hx0
    have hchq : (ch : ℚ) < 2 ^ 32 := by exact_mod_cast hch
    have hch0 : (0 : ℚ) ≤ ch := Nat.cast_nonneg _
    have hxch : (ch : ℚ) < (cw : ℚ) / rxy := by
      have h3 : toDouble ((cw : ℚ) / rxy) ≤ (cw : ℚ) / rxy + (cw : ℚ) / rxy / 2 ^ 53 := by
        have := (abs_le.mp herr).2
        unfold toDouble
        linarith
      by_contra hc
      push_neg at hc
      have h4 : (cw : ℚ) / rxy / 2 ^ 53 ≤ (ch : ℚ) / 2 ^ 53 :=
        div_le_div_of_nonneg_right hc (by norm_num)
      have h5 : (ch : ℚ) / 2 ^ 53 < 1 := by
        rw [div_lt_one (by norm_num)]
        exact lt_trans hchq (by norm_num)
      linarith
    have hcwlt : (ch : ℚ) * rxy < cw := (lt_div_iff₀ h0).mp hxch
    have hw0 : 0 ≤ (ch : ℚ) * rxy := mul_nonneg hch0 (le_of_lt h0)
    have hWle : toDouble ((ch : ℚ) * rxy) ≤ cw := by
      rcases eq_or_lt_of_le hw0 with h | h
      · rw [← h]
        unfold toDouble
        rw [roundBinary_zero]
        exact Nat.cast_nonneg _
      · exact roundBinary_le_natCast h (le_of_lt hcwlt) (lt_trans hcw (by norm_num))
    have hWn : 0 ≤ toDouble ((ch : ℚ) * rxy) := roundBinary_nonneg (by norm_num) hw0
    have hW32 : toDouble ((ch : ℚ) * rxy) < 2 ^ 32 := by
      have : (cw : ℚ) < 2 ^ 32 := by exact_mod_cast hcw
      linarith
    have hW := toUInt32_truncate _ hWn hW32
    have hFle : ⌊toDouble ((ch : ℚ) * rxy)⌋₊ ≤ cw := Nat.floor_le_of_le hWle
    simp [hgt, hW, not_lt.mpr hFle]

theorem fitSize_wide_ratio_tall_canvas :
    fitSize 100 1000 (toFloat (20 / 10)) = (100, 200) := by
  have e : toFloat (20 / 10) = 2 := by
    rw [show ((20 : ℚ) / 10) = ((2 : ℕ) : ℚ) by norm_num, toFloat_natCast (by norm_num)]
    norm_num
  have d1 : toDouble (((100 : ℕ) : ℚ) * 2) = 200 := by
    rw [show (((100 : ℕ) : ℚ) * 2) = ((200 : ℕ) : ℚ) by norm_num, toDouble_natCast (by norm_num)]
    norm_num
  rw [e]
  unfold fitSize
  rw [if_neg (by norm_num)]
  simp only [d1]
  norm_num [truncate, toUInt32]
  rfl


/-! ## The decimal names of `GetNewCanvasName` are pairwise different -/

theorem digitChar_value (k : Nat) (hk : k < 10) : (Nat.digitChar k).toNat - 48 = k := by
  interval_cases k <;> rfl

theorem toDigitsCore_value :
    ∀ (fuel n : Nat) (ds : List Char), n < fuel →
      List.foldl (fun acc c => 10 * acc + (Char.toNat c - 48)) 0
          (Nat.toDigitsCore 10 fuel n ds) =
        List.foldl (fun acc c => 10 * acc + (Char.toNat c - 48)) n ds := by
  intro fuel
  induction fuel with
  | zero => intro n ds h; exact absurd h (Nat.not_lt_zero _)
  | succ fuel ih =>
    intro n ds h
    simp only [Nat.toDigitsCore]
    split_ifs with h0
    · have hn : n < 10 := by omega
      simp only [List.foldl_cons, Nat.mul_zero, Nat.zero_add]
      rw [digitChar_value _ (Nat.mod_lt _ (by decide)), Nat.mod_eq_of_lt hn]
    · rw [ih (n / 10) _ (by omega)]
      simp only [List.foldl_cons]
      rw [digitChar_value _ (Nat.mod_lt _ (by decide)), Nat.div_add_mod]

theorem toString_nat_injective (a b : Nat) (h : toString a = toString b) : a = b := by
  have h1 : Nat.toDigits 10 a = Nat.toDigits 10 b := by
    have h2 : (Nat.toDigits 10 a).asString = (Nat.toDigits 10 b).asString := h
    exact congrArg String.data h2
  have ha := toDigitsCore_value (a + 1) a [] (Nat.lt_succ_self a)
  have hb := toDigitsCore_value (b + 1) b [] (Nat.lt_succ_self b)
  simp only [List.foldl_nil] at ha hb
  rw [← ha, ← hb]
  exact congrArg _ h1

theorem numberedName_injective (d : String) (j k : Nat)
    (h : numberedName d j = numberedName d k) : j = k := by
  apply toString_nat_injective
  have h1 := congrArg String.data h
  simp only [numberedName, String.data_append, List.append_cancel_left_eq] at h1
  exact String.ext h1

theorem numberedName_ne_default (d : String) (k : Nat) : numberedName d k ≠ d := by
  intro h
  have h1 := congrArg String.length h
  simp only [numberedName, String.length_append] at h1
  have h2 : "_n".length = 2 := rfl
  omega


/-! ## The loop of `GetNewCanvasName` -/

/-- The loop of `GetNewCanvasName` ends on a free name while it has more rounds left
than there are names it has not yet met: `T` is the set of candidates already found
in the list. -/
theorem findNewName_not_mem (names : List String) (d : String) :
    ∀ (fuel n : Nat) (cdef : String) (T : Finset String),
      T ⊆ names.toFinset → cdef ∉ T →
      (∀ k, n ≤ k → numberedName d k ∉ T ∧ numberedName d k ≠ cdef) →
      names.toFinset.card < T.card + fuel →
      findNewName names d fuel n cdef ∉ names := by
  intro fuel
  induction fuel with
  | zero =>
    intro n cdef T hT _ _ hcard
    have := Finset.card_le_card hT
    omega
  | succ fuel ih =>
    intro n cdef T hT hc hk hcard
    unfold findNewName
    by_cases hmem : cdef ∈ names
    · rw [if_pos hmem]
      apply ih (n + 1) (numberedName d n) (insert cdef T)
      · exact Finset.insert_subset (List.mem_toFinset.mpr hmem) hT
      · rw [Finset.mem_insert, not_or]
        exact ⟨(hk n (le_refl n)).2, (hk n (le_refl n)).1⟩
      · intro k hnk
        refine ⟨?_, ?_⟩
        · rw [Finset.mem_insert, not_or]
          exact ⟨(hk k (by omega)).2, (hk k (by omega)).1⟩
        · intro h
          have := numberedName_injective d k n h
          omega
      · rw [Finset.card_insert_of_not_mem hc]
        omega
    · rw [if_neg hmem]
      exact hmem

/-- When the loop ends on a free name, that name is the start candidate if it is free,
and otherwise the numbered name with the smallest number, counting from `n`, that is
free. -/
theorem findNewName_spec (names : List String) (d : String) :
    ∀ (fuel n : Nat) (cdef : String), findNewName names d fuel n cdef ∉ names →
      (cdef ∉ names ∧ findNewName names d fuel n cdef = cdef) ∨
        (cdef ∈ names ∧ ∃ k, n ≤ k ∧ findNewName names d fuel n cdef = numberedName d k ∧
          ∀ j, n ≤ j → j < k → numberedName d j ∈ names) := by
  intro fuel
  induction fuel with
  | zero =>
    intro n cdef h
    exact Or.inl ⟨h, rfl⟩
  | succ fuel ih =>
    intro n cdef
    unfold findNewName
    by_cases hmem : cdef ∈ names
    · rw [if_pos hmem]
      intro h
      right
      refine ⟨hmem, ?_⟩
      rcases ih (n + 1) (numberedName d n) h with ⟨_, h2⟩ | ⟨h1, k, hk, h2, h3⟩
      · exact ⟨n, le_refl n, h2, fun j hj hjn => absurd hjn (not_lt.mpr hj)⟩
      · refine ⟨k, by omega, h2, ?_⟩
        intro j hj hjk
        rcases Nat.eq_or_lt_of_le hj with rfl | hlt
        · exact h1
        · exact h3 j hlt hjk
    · rw [if_neg hmem]
      intro _
      exact Or.inl ⟨hmem, rfl⟩

/-- Once the loop ends on a free name, more rounds change nothing. -/
theorem findNewName_more_fuel (names : List String) (d : String) :
    ∀ (fuel n : Nat) (cdef : String), findNewName names d fuel n cdef ∉ names →
      ∀ extra, findNewName names d (fuel + extra) n cdef = findNewName names d fuel n cdef := by
  intro fuel
  induction fuel with
  | zero =>
    intro n cdef h extra
    have hc : cdef ∉ names := h
    cases extra with
    | zero => rfl
    | succ e =>
      show findNewName names d (0 + (e + 1)) n cdef = cdef
      rw [Nat.zero_add]
      unfold findNewName
      rw [if_neg hc]
  | succ fuel ih =>
    intro n cdef h extra
    rw [Nat.add_right_comm]
    unfold findNewName at h ⊢
    by_cases hmem : cdef ∈ names
    · simp only [if_pos hmem] at h ⊢
      exact ih _ _ h extra
    · simp only [if_neg hmem]

/-- The search of `GetNewCanvasName` for a default name: with `length + 1` rounds it
ends on a name that is free. -/
theorem findNewName_default_free (names : List String) (d : String) :
    findNewName names d (names.length + 1) (names.length + 1) d ∉ names := by
  apply findNewName_not_mem names d _ _ _ ∅ (Finset.empty_subset _) (Finset.not_mem_empty _)
  · intro k _
    exact ⟨Finset.not_mem_empty _, numberedName_ne_default d k⟩
  · have := List.toFinset_card_le names
    simp only [Finset.card_empty]
    omega


/-! ## The claims on size, batch flag, aspect ratio, name and current pad -/

/-- C11 (counterexample).  A canvas made by the default constructor body has no
implementation; `SetCanvasSize(600, 400)` on it leaves the width and height at 0, not
at 600 and 400. -/
theorem C11_counterexample_no_imp :
    (((blankCanvas.Constructor (sampleGlobals true)).SetCanvasSize emptyWorld 600 400).1.fCw = 0 ∧
      ((blankCanvas.Constructor (sampleGlobals true)).SetCanvasSize emptyWorld 600 400).1.fCh = 0) ∧
      (blankCanvas.Constructor (sampleGlobals true)).fCanvasImp = none :=
  ⟨⟨rfl, rfl⟩, rfl⟩

/-- C11 (as amended).  For every canvas that has a canvas implementation and every
`ww`, `wh`, after `SetCanvasSize(ww, wh)` the width and height members `fCw`, `fCh`
equal `ww` and `wh` and the size was passed to the implementation; for a canvas
without implementation the call changes nothing. -/
theorem C11_canvas_size_with_imp (c : TCanvas) (w : World) (ww wh : Nat) :
    (c.fCanvasImp.isSome = true →
        (c.SetCanvasSize w ww wh).1.fCw = ww ∧ (c.SetCanvasSize w ww wh).1.fCh = wh ∧
          (c.SetCanvasSize w ww wh).2.calls = w.calls ++ [GuiCall.setCanvasSize ww wh]) ∧
      (c.fCanvasImp = none → c.SetCanvasSize w ww wh = (c, w)) := by
  unfold TCanvas.SetCanvasSize
  cases h : c.fCanvasImp with
  | none => simp
  | some imp => simp

/-- C11 (witness).  A canvas with the sample implementation takes the size 600 x 400. -/
theorem C11_witness_with_imp :
    (({ blankCanvas with fCanvasImp := some sampleImp } : TCanvas).SetCanvasSize emptyWorld
        600 400).1.fCw = 600 ∧
      (({ blankCanvas with fCanvasImp := some sampleImp } : TCanvas).SetCanvasSize emptyWorld
        600 400).1.fCh = 400 :=
  ⟨((C11_canvas_size_with_imp { blankCanvas with fCanvasImp := some sampleImp } emptyWorld
      600 400).1 rfl).1,
    ((C11_canvas_size_with_imp { blankCanvas with fCanvasImp := some sampleImp } emptyWorld
      600 400).1 rfl).2.1⟩

/-- C12 (the code at the failing input).  A batch canvas with window identifier 1 and
pixel size 100 x 1000, `Size(20, 10)` with the body of `Resize` running: the new pixel
size is 100 x 200, of ratio 1/2, while the ratio `xsize / ysize` is 2 and the two sizes
that keep it are `(100, floor(100 * 10 / 20)) = (100, 50)` and
`(floor(1000 * 20 / 10), 1000) = (2000, 1000)`. -/
theorem C12_size_inverts_ratio :
    ((TCanvas.Size (sampleGlobals true) true true
        { blankCanvas with fBatch := true, fCanvasID := 1, fCw := 100, fCh := 1000 } 20 10).fCw,
      (TCanvas.Size (sampleGlobals true) true true
        { blankCanvas with fBatch := true, fCanvasID := 1, fCw := 100, fCh := 1000 } 20 10).fCh)
        = (100, 200) ∧
      ⌊((100 : ℕ) : ℚ) * 10 / 20⌋ = 50 ∧ ⌊((1000 : ℕ) : ℚ) * 20 / 10⌋ = 2000 := by
  refine ⟨?_, by norm_num, by norm_num⟩
  obtain ⟨h1, h2⟩ := Size_batch_size (sampleGlobals true) true true
    { blankCanvas with fBatch := true, fCanvasID := 1, fCw := 100, fCh := 1000 } 20 10 rfl
    (by decide) (Or.inl rfl) (by norm_num) (by norm_num)
  rw [h1, h2]
  show ((fitSize 100 1000 (toFloat (20 / 10))).1, (fitSize 100 1000 (toFloat (20 / 10))).2) =
    (100, 200)
  rw [fitSize_wide_ratio_tall_canvas]

/-- What `Size(0, 0)` does to a batch canvas with a window identifier when the body of
`Resize` runs: the user sizes are zero, the pixel size is not fitted and the real sizes
are set. -/
theorem Size_zero_batch (g : Globals) (lineProcessing cmdThread : Bool) (c : TCanvas)
    (hb : c.fBatch = true) (hid : c.fCanvasID ≠ -1)
    (hrun : lineProcessing = true ∨ cmdThread = true) :
    TCanvas.Size g lineProcessing cmdThread c 0 0 =
      ({ c with fXsizeUser := 0, fYsizeUser := 0 } : TCanvas).autoRealSize := by
  rw [Size_batch g lineProcessing cmdThread c 0 0 hb hid hrun]
  have hfit : ({ c with fXsizeUser := 0, fYsizeUser := 0 } : TCanvas).fitUserSize =
      { c with fXsizeUser := 0, fYsizeUser := 0 } := by
    unfold TCanvas.fitUserSize
    rw [if_neg (by simp)]
  rw [hfit]

/-- The real sizes `autoRealSize` stores, for pixel sizes in the range of `UInt_t`: the
product `20 * size` is exact in `Double_t`. -/
theorem autoRealSize_real (c : TCanvas) (hcw : c.fCw < 2 ^ 32) (hch : c.fCh < 2 ^ 32) :
    (c.fCw < c.fCh → c.autoRealSize.fYsizeReal = 20 ∧
        c.autoRealSize.fXsizeReal = toFloat (toDouble (20 * (c.fCw : ℚ) / (c.fCh : ℚ)))) ∧
      (¬ c.fCw < c.fCh → c.autoRealSize.fXsizeReal = 20 ∧
        c.autoRealSize.fYsizeReal = toFloat (toDouble (20 * (c.fCh : ℚ) / (c.fCw : ℚ)))) := by
  have e : ∀ n : Nat, n < 2 ^ 32 → toDouble (kDefaultCanvasSize * (n : ℚ)) = 20 * (n : ℚ) := by
    intro n hn
    have h := toDouble_natCast (n := 20 * n) (by omega)
    push_cast at h
    exact h
  unfold TCanvas.autoRealSize
  constructor
  · intro hlt
    rw [if_pos hlt]
    refine ⟨rfl, ?_⟩
    show toFloat (toDouble (toDouble (kDefaultCanvasSize * (c.fCw : ℚ)) / (c.fCh : ℚ))) = _
    rw [e _ hcw]
  · intro hlt
    rw [if_neg hlt]
    refine ⟨rfl, ?_⟩
    show toFloat (toDouble (toDouble (kDefaultCanvasSize * (c.fCh : ℚ)) / (c.fCw : ℚ))) = _
    rw [e _ hch]

/-- The real sizes after `Size(0, 0)` on a batch canvas with a window identifier and
pixel sizes in the range of `UInt_t`, when the body of `Resize` runs. -/
theorem Size_zero_batch_real (g : Globals) (lineProcessing cmdThread : Bool) (c : TCanvas)
    (hb : c.fBatch = true) (hid : c.fCanvasID ≠ -1)
    (hrun : lineProcessing = true ∨ cmdThread = true)
    (hcw : c.fCw < 2 ^ 32) (hch : c.fCh < 2 ^ 32) :
    (c.fCw < c.fCh → (TCanvas.Size g lineProcessing cmdThread c 0 0).fYsizeReal = 20 ∧
        (TCanvas.Size g lineProcessing cmdThread c 0 0).fXsizeReal =
          toFloat (toDouble (20 * (c.fCw : ℚ) / (c.fCh : ℚ)))) ∧
      (¬ c.fCw < c.fCh → (TCanvas.Size g lineProcessing cmdThread c 0 0).fXsizeReal = 20 ∧
        (TCanvas.Size g lineProcessing cmdThread c 0 0).fYsizeReal =
          toFloat (toDouble (20 * (c.fCh : ℚ) / (c.fCw : ℚ)))) := by
  rw [Size_zero_batch g lineProcessing cmdThread c hb hid hrun]
  exact autoRealSize_real ({ c with fXsizeUser := 0, fYsizeUser := 0 } : TCanvas) hcw hch

/-- C13 (as amended).  For every batch canvas with a window identifier and a pixel size
with both sides positive (and in the range of `UInt_t`), when the body of `Resize` runs
(the call is not handed to the interpreter), after `Size(0, 0)` the larger of
`fXsizeReal` and `fYsizeReal` equals 20; the other is the `Size_t` that holds the
`Double_t` quotient `20 * min(cw, ch) / max(cw, ch)`: it is within the relative error
`2^(-23)` of the exact quotient and equals it when the quotient is a whole number; and
`fCw`, `fCh` are unchanged. -/
theorem C13_size_automatic (g : Globals) (lineProcessing cmdThread : Bool) (c : TCanvas)
    (hb : c.fBatch = true) (hid : c.fCanvasID ≠ -1) (hcw : 0 < c.fCw) (hch : 0 < c.fCh)
    (hcw32 : c.fCw < 2 ^ 32) (hch32 : c.fCh < 2 ^ 32)
    (hrun : lineProcessing = true ∨ cmdThread = true) :
    max (TCanvas.Size g lineProcessing cmdThread c 0 0).fXsizeReal
          (TCanvas.Size g lineProcessing cmdThread c 0 0).fYsizeReal = 20 ∧
      min (TCanvas.Size g lineProcessing cmdThread c 0 0).fXsizeReal
          (TCanvas.Size g lineProcessing cmdThread c 0 0).fYsizeReal =
        toFloat (toDouble (20 * ((min c.fCw c.fCh : Nat) : ℚ) / ((max c.fCw c.fCh : Nat) : ℚ))) ∧
      |min (TCanvas.Size g lineProcessing cmdThread c 0 0).fXsizeReal
            (TCanvas.Size g lineProcessing cmdThread c 0 0).fYsizeReal -
          20 * ((min c.fCw c.fCh : Nat) : ℚ) / ((max c.fCw c.fCh : Nat) : ℚ)| ≤
        20 * ((min c.fCw c.fCh : Nat) : ℚ) / ((max c.fCw c.fCh : Nat) : ℚ) / 2 ^ 23 ∧
      (∀ k : Nat, 20 * min c.fCw c.fCh = k * max c.fCw c.fCh →
        min (TCanvas.Size g lineProcessing cmdThread c 0 0).fXsizeReal
            (TCanvas.Size g lineProcessing cmdThread c 0 0).fYsizeReal = k) ∧
      (TCanvas.Size g lineProcessing cmdThread c 0 0).fCw = c.fCw ∧
      (TCanvas.Size g lineProcessing cmdThread c 0 0).fCh = c.fCh := by
  have hmin0 : 0 < min c.fCw c.fCh := lt_min hcw hch
  have hmax0 : 0 < max c.fCw c.fCh := lt_of_lt_of_le hcw (le_max_left _ _)
  have hminq : (0 : ℚ) < ((min c.fCw c.fCh : Nat) : ℚ) := by exact_mod_cast hmin0
  have hmaxq : (0 : ℚ) < ((max c.fCw c.fCh : Nat) : ℚ) := by exact_mod_cast hmax0
  have hmm : ((min c.fCw c.fCh : Nat) : ℚ) ≤ ((max c.fCw c.fCh : Nat) : ℚ) := by
    exact_mod_cast le_trans (min_le_left _ _) (le_max_left _ _)
  have hq0 : 0 < 20 * ((min c.fCw c.fCh : Nat) : ℚ) / ((max c.fCw c.fCh : Nat) : ℚ) :=
    div_pos (mul_pos (by norm_num) hminq) hmaxq
  have hq20 : 20 * ((min c.fCw c.fCh : Nat) : ℚ) / ((max c.fCw c.fCh : Nat) : ℚ) ≤
      ((20 : Nat) : ℚ) := by
    rw [div_le_iff₀ hmaxq, show ((20 : Nat) : ℚ) = 20 by norm_num]
    linarith
  have hle : toFloat (toDouble (20 * ((min c.fCw c.fCh : Nat) : ℚ) /
      ((max c.fCw c.fCh : Nat) : ℚ))) ≤ 20 := by
    have := toFloat_toDouble_le_natCast hq0 hq20 (by norm_num)
    exact_mod_cast this
  have hreal : (TCanvas.Size g lineProcessing cmdThread c 0 0).fXsizeReal = 20 ∧
        (TCanvas.Size g lineProcessing cmdThread c 0 0).fYsizeReal =
          toFloat (toDouble (20 * ((min c.fCw c.fCh : Nat) : ℚ) /
            ((max c.fCw c.fCh : Nat) : ℚ))) ∨
      (TCanvas.Size g lineProcessing cmdThread c 0 0).fYsizeReal = 20 ∧
        (TCanvas.Size g lineProcessing cmdThread c 0 0).fXsizeReal =
          toFloat (toDouble (20 * ((min c.fCw c.fCh : Nat) : ℚ) /
            ((max c.fCw c.fCh : Nat) : ℚ))) := by
    obtain ⟨r1, r2⟩ := Size_zero_batch_real g lineProcessing cmdThread c hb hid hrun hcw32 hch32
    by_cases hlt : c.fCw < c.fCh
    · right
      rw [min_eq_left (le_of_lt hlt), max_eq_right (le_of_lt hlt)]
      exact r1 hlt
    · left
      rw [min_eq_right (not_lt.mp hlt), max_eq_left (not_lt.mp hlt)]
      exact r2 hlt
  have hsize : (TCanvas.Size g lineProcessing cmdThread c 0 0).fCw = c.fCw ∧
      (TCanvas.Size g lineProcessing cmdThread c 0 0).fCh = c.fCh := by
    rw [Size_zero_batch g lineProcessing cmdThread c hb hid hrun]
    exact autoRealSize_size ({ c with fXsizeUser := 0, fYsizeUser := 0 } : TCanvas)
  have hminv : min (TCanvas.Size g lineProcessing cmdThread c 0 0).fXsizeReal
      (TCanvas.Size g lineProcessing cmdThread c 0 0).fYsizeReal =
        toFloat (toDouble (20 * ((min c.fCw c.fCh : Nat) : ℚ) /
          ((max c.fCw c.fCh : Nat) : ℚ))) := by
    rcases hreal with ⟨a, b⟩ | ⟨a, b⟩
    · rw [a, b, min_eq_right hle]
    · rw [a, b, min_eq_left hle]
  refine ⟨?_, hminv, ?_, ?_, hsize.1, hsize.2⟩
  · rcases hreal with ⟨a, b⟩ | ⟨a, b⟩
    · rw [a, b, max_eq_left hle]
    · rw [a, b, max_eq_right hle]
  · rw [hminv]
    exact abs_toFloat_toDouble_sub_le (le_of_lt hq0)
  · intro k hk
    rw [hminv]
    have hkq : 20 * ((min c.fCw c.fCh : Nat) : ℚ) / ((max c.fCw c.fCh : Nat) : ℚ) = (k : ℚ) := by
      rw [div_eq_iff (ne_of_gt hmaxq)]
      exact_mod_cast hk
    have hk20 : k ≤ 20 := by
      have : (k : ℚ) ≤ ((20 : Nat) : ℚ) := hkq ▸ hq20
      exact_mod_cast this
    rw [hkq]
    unfold toFloat
    rw [toDouble_natCast (by omega), roundBinary_natCast (by omega)]

/-- C13 (counterexample).  A batch canvas with window identifier 1 and pixel size
300 x 700: after `Size(0, 0)` the smaller real size is the `Size_t` value
`4493897/524288`, not `20 * 300 / 700 = 60/7`. -/
theorem C13_counterexample_300_700 :
    min (TCanvas.Size (sampleGlobals true) true true
          { blankCanvas with fBatch := true, fCanvasID := 1, fCw := 300, fCh := 700 } 0 0).fXsizeReal
        (TCanvas.Size (sampleGlobals true) true true
          { blankCanvas with fBatch := true, fCanvasID := 1, fCw := 300, fCh := 700 } 0 0).fYsizeReal
        = 4493897 / 524288 ∧
      (4493897 / 524288 : ℚ) ≠ 20 * 300 / 700 := by
  refine ⟨?_, by norm_num⟩
  obtain ⟨r1, _⟩ := Size_zero_batch_real (sampleGlobals true) true true
    { blankCanvas with fBatch := true, fCanvasID := 1, fCw := 300, fCh := 700 } rfl (by decide)
    (Or.inl rfl) (by norm_num [blankCanvas]) (by norm_num [blankCanvas])
  obtain ⟨a, b⟩ := r1 (by decide)
  rw [a, b]
  show min (toFloat (toDouble (20 * ((300 : ℕ) : ℚ) / ((700 : ℕ) : ℚ)))) 20 = _
  rw [show (20 * ((300 : ℕ) : ℚ) / ((700 : ℕ) : ℚ)) = 60 / 7 by norm_num,
    toDouble_sixty_sevenths, toFloat_sixty_sevenths]
  norm_num

/-- C13 (witness).  A batch canvas with window identifier 1 and pixel size 300 x 600
gets the real sizes 10 and 20 from `Size(0, 0)`. -/
theorem C13_witness_batch_300_600 :
    max (TCanvas.Size (sampleGlobals true) true true
          { blankCanvas with fBatch := true, fCanvasID := 1, fCw := 300, fCh := 600 } 0 0).fXsizeReal
        (TCanvas.Size (sampleGlobals true) true true
          { blankCanvas with fBatch := true, fCanvasID := 1, fCw := 300, fCh := 600 } 0 0).fYsizeReal
        = 20 ∧
      min (TCanvas.Size (sampleGlobals true) true true
          { blankCanvas with fBatch := true, fCanvasID := 1, fCw := 300, fCh := 600 } 0 0).fXsizeReal
        (TCanvas.Size (sampleGlobals true) true true
          { blankCanvas with fBatch := true, fCanvasID := 1, fCw := 300, fCh := 600 } 0 0).fYsizeReal
        = (10 : ℕ) := by
  have h := C13_size_automatic (sampleGlobals true) true true
    { blankCanvas with fBatch := true, fCanvasID := 1, fCw := 300, fCh := 600 } rfl (by decide)
    (by decide) (by decide) (by norm_num [blankCanvas]) (by norm_num [blankCanvas]) (Or.inl rfl)
  exact ⟨h.1, h.2.2.2.1 10 (by decide)⟩

/-- C14.  For every canvas and every boolean `b`, after `SetBatch(b)` the batch flag is
true whenever ROOT runs in batch mode or the canvas is a web canvas, and equals `b`
otherwise; no other member is changed. -/
theorem C14_set_batch (g : Globals) (c : TCanvas) (b : Bool) :
    ((g.isBatch = true ∨ c.IsWeb = true) → (c.SetBatch g b).fBatch = true) ∧
      (g.isBatch = false → c.IsWeb = false → (c.SetBatch g b).fBatch = b) ∧
      { c.SetBatch g b with fBatch := c.fBatch } = c := by
  unfold TCanvas.SetBatch
  refine ⟨?_, ?_, ?_⟩
  · intro h
    rw [if_pos (by simpa using h)]
  · intro h1 h2
    rw [if_neg (by simp [h1, h2])]
  · split_ifs <;> rfl

/-- C15 (counterexample).  A canvas with an implementation and size 100 x 100 is fixed
to its aspect ratio 1, then given the size 200 x 100, then `SetFixedAspectRatio(true)`
is called again: the canvas is already marked, the call changes nothing, and
`fAspectRatio` is still 1 while `fCw / fCh` is 2.  And on a canvas of size 100 x 300
that is not marked, the ratio stored is the `Double_t` value
`6004799503160661 / 2^54`, not `100/300`. -/
theorem C15_counterexample_marked_or_rounded :
    ((((((({ blankCanvas with fCanvasImp := some sampleImp, fCw := 100, fCh := 100 } :
        TCanvas).SetFixedAspectRatio true).SetCanvasSize emptyWorld 200 100).1).SetFixedAspectRatio
        true).fAspectRatio = 1) ∧
      (((((({ blankCanvas with fCanvasImp := some sampleImp, fCw := 100, fCh := 100 } :
        TCanvas).SetFixedAspectRatio true).SetCanvasSize emptyWorld 200 100).1).SetFixedAspectRatio
        true).fCw = 200) ∧
      (((((({ blankCanvas with fCanvasImp := some sampleImp, fCw := 100, fCh := 100 } :
        TCanvas).SetFixedAspectRatio true).SetCanvasSize emptyWorld 200 100).1).SetFixedAspectRatio
        true).fCh = 100)) ∧
      ((({ blankCanvas with fCw := 100, fCh := 300 } : TCanvas).SetFixedAspectRatio
          true).fAspectRatio = 6004799503160661 / 18014398509481984 ∧
        (6004799503160661 / 18014398509481984 : ℚ) ≠ 100 / 300) := by
  have one : toDouble (((100 : ℕ) : ℚ) / ((100 : ℕ) : ℚ)) = 1 := by
    rw [show (((100 : ℕ) : ℚ) / ((100 : ℕ) : ℚ)) = ((1 : ℕ) : ℚ) by norm_num,
      toDouble_natCast (by norm_num)]
    norm_num
  refine ⟨⟨?_, rfl, rfl⟩, ?_, by norm_num⟩
  · show toDouble (((100 : ℕ) : ℚ) / ((100 : ℕ) : ℚ)) = 1
    exact one
  · show toDouble (((100 : ℕ) : ℚ) / ((300 : ℕ) : ℚ)) = _
    rw [show (((100 : ℕ) : ℚ) / ((300 : ℕ) : ℚ)) = 1 / 3 by norm_num, toDouble_third]

/-- C15 (as amended).  For every canvas with non-zero height `fCh`, after
`SetFixedAspectRatio(true)` the canvas is marked as fixed-aspect; when it was not
already marked, `fAspectRatio` is the `Double_t` quotient of `fCw` by `fCh`, which is
within the relative error `2^(-53)` of `fCw / fCh` and equals it when `fCw` is a
multiple of `fCh`, and no other member changes; when it was already marked, the call
changes nothing and the stored `fAspectRatio` is kept. -/
theorem C15_fix_aspect_ratio (c : TCanvas) (hch : c.fCh ≠ 0) :
    (c.SetFixedAspectRatio true).fFixedAspectRatio = true ∧
      (c.fFixedAspectRatio = false →
        c.SetFixedAspectRatio true =
            { c with fAspectRatio := toDouble ((c.fCw : ℚ) / (c.fCh : ℚ)),
                     fFixedAspectRatio := true } ∧
          |(c.SetFixedAspectRatio true).fAspectRatio - (c.fCw : ℚ) / (c.fCh : ℚ)| ≤
            (c.fCw : ℚ) / (c.fCh : ℚ) / 2 ^ 53 ∧
          (∀ k : Nat, k < 2 ^ 53 → c.fCw = k * c.fCh →
            (c.SetFixedAspectRatio true).fAspectRatio = k)) ∧
      (c.fFixedAspectRatio = true → c.SetFixedAspectRatio true = c) := by
  have hq : (c.fCh : ℚ) ≠ 0 := by exact_mod_cast hch
  cases hf : c.fFixedAspectRatio with
  | false =>
    have e : c.SetFixedAspectRatio true =
        { c with fAspectRatio := toDouble ((c.fCw : ℚ) / (c.fCh : ℚ)),
                 fFixedAspectRatio := true } := by
      unfold TCanvas.SetFixedAspectRatio
      simp [hch, hf]
    refine ⟨by rw [e], fun _ => ⟨e, ?_, ?_⟩, fun h => absurd h (by simp)⟩
    · rw [e]
      exact abs_roundBinary_sub_le_of_nonneg 53
        (div_nonneg (Nat.cast_nonneg _) (Nat.cast_nonneg _))
    · intro k hk hcw
      rw [e]
      show toDouble ((c.fCw : ℚ) / (c.fCh : ℚ)) = k
      rw [hcw]
      push_cast
      rw [mul_div_assoc, div_self hq, mul_one]
      exact toDouble_natCast hk
  | true =>
    have e : c.SetFixedAspectRatio true = c := by
      unfold TCanvas.SetFixedAspectRatio
      simp [hf]
    exact ⟨by rw [e, hf], fun h => absurd h (by simp), fun _ => e⟩

/-- C15 (witness).  A canvas of size 200 x 100 that is not yet marked gets the aspect
ratio 2. -/
theorem C15_witness_ratio_two :
    (({ blankCanvas with fCw := 200, fCh := 100 } : TCanvas).SetFixedAspectRatio
        true).fFixedAspectRatio = true ∧
      (({ blankCanvas with fCw := 200, fCh := 100 } : TCanvas).SetFixedAspectRatio
        true).fAspectRatio = (2 : ℕ) := by
  have h := C15_fix_aspect_ratio { blankCanvas with fCw := 200, fCh := 100 } (by decide)
  exact ⟨h.1, (h.2.1 rfl).2.2 2 (by norm_num) (by decide)⟩

/-- C16.  `GetNewCanvasName` and `SetName`: for a non-empty name the canvas name becomes
exactly that name; for a null or empty name the name assigned is not the name of any
canvas in the global list, it is the default canvas name when that is unused and
otherwise `<default>_n<k>` for the smallest `k ≥ list size + 1` whose name is unused;
and the search loop ends by its own test: any bound of at least `list size + 1`
rounds gives the same name. -/
theorem C16_new_canvas_name (g : Globals) (w : World) (c : TCanvas) :
    (∀ a : String, a ≠ "" →
        GetNewCanvasName g w (some a) = a ∧ (c.SetName g w (some a)).fName = a) ∧
      (∀ arg : Option String, arg = none ∨ arg = some "" →
        (c.SetName g w arg).fName = GetNewCanvasName g w arg ∧
          GetNewCanvasName g w arg ∉ w.canvases.map Prod.fst ∧
          (g.defCanvasName ∉ w.canvases.map Prod.fst →
            GetNewCanvasName g w arg = g.defCanvasName) ∧
          (g.defCanvasName ∈ w.canvases.map Prod.fst →
            ∃ k, w.canvases.length + 1 ≤ k ∧
              GetNewCanvasName g w arg = numberedName g.defCanvasName k ∧
              ∀ j, w.canvases.length + 1 ≤ j → j < k →
                numberedName g.defCanvasName j ∈ w.canvases.map Prod.fst) ∧
          (∀ fuel, w.canvases.length + 1 ≤ fuel →
            findNewName (w.canvases.map Prod.fst) g.defCanvasName fuel
                (w.canvases.length + 1) g.defCanvasName =
              GetNewCanvasName g w arg)) := by
  constructor
  · intro a ha
    have h : GetNewCanvasName g w (some a) = a := by
      unfold GetNewCanvasName
      simp [ha]
    exact ⟨h, h⟩
  · intro arg harg
    have hlen : (w.canvases.map Prod.fst).length = w.canvases.length := List.length_map _ _
    have hG : GetNewCanvasName g w arg =
        findNewName (w.canvases.map Prod.fst) g.defCanvasName
          ((w.canvases.map Prod.fst).length + 1) ((w.canvases.map Prod.fst).length + 1)
          g.defCanvasName := by
      rw [hlen]
      rcases harg with rfl | rfl
      · rfl
      · unfold GetNewCanvasName
        simp
    have hfree := findNewName_default_free (w.canvases.map Prod.fst) g.defCanvasName
    have hspec := findNewName_spec (w.canvases.map Prod.fst) g.defCanvasName _ _ _ hfree
    refine ⟨rfl, ?_, ?_, ?_, ?_⟩
    · rw [hG]; exact hfree
    · intro hd
      rw [hG]
      rcases hspec with ⟨_, h2⟩ | ⟨h1, _⟩
      · exact h2
      · exact absurd h1 hd
    · intro hd
      rw [hG]
      rcases hspec with ⟨h1, _⟩ | ⟨_, k, hk, h2, h3⟩
      · exact absurd hd h1
      · rw [hlen] at hk h3
        exact ⟨k, hk, h2, h3⟩
    · intro fuel hfuel
      rw [hG]
      obtain ⟨e, rfl⟩ := Nat.exists_eq_add_of_le hfuel
      rw [← hlen]
      exact findNewName_more_fuel _ _ _ _ _ hfree e

/-- C17.  For every canvas whose window identifier `fCanvasID` is -1, `cd` returns a
null pointer and leaves the current pad as it was; for every canvas with another
identifier it returns the current pad `gPad` as `TPad::cd` set it. -/
theorem C17_cd (padCd : TCanvas → Option Nat → Int → Option Nat) (c : TCanvas)
    (gPad : Option Nat) (subpadnumber : Int) :
    (c.fCanvasID = -1 →
        (c.cd padCd gPad subpadnumber).result = none ∧
          (c.cd padCd gPad subpadnumber).gPad = gPad) ∧
      (c.fCanvasID ≠ -1 →
        (c.cd padCd gPad subpadnumber).result = (c.cd padCd gPad subpadnumber).gPad ∧
          (c.cd padCd gPad subpadnumber).gPad = padCd c gPad subpadnumber) := by
  unfold TCanvas.cd
  constructor
  · intro h
    rw [if_pos h]
    exact ⟨rfl, rfl⟩
  · intro h
    rw [if_neg h]
    exact ⟨rfl, rfl⟩

/-- C16 (witness).  With the canvases `c1` and `c1_n3` in the list and the default name
`c1`, a null name gives `c1_n4`, which is not in the list: `c1` is taken, counting starts
at the list size plus one, and `c1_n3` is taken too.  The name `mine` is kept as it is. -/
theorem C16_witness_numbered :
    GetNewCanvasName (sampleGlobals true) ⟨[("c1", true), ("c1_n3", true)], []⟩ none ∉
        [("c1", true), ("c1_n3", true)].map Prod.fst ∧
      GetNewCanvasName (sampleGlobals true) ⟨[("c1", true), ("c1_n3", true)], []⟩ none =
        "c1_n4" ∧
      GetNewCanvasName (sampleGlobals true) ⟨[("c1", true), ("c1_n3", true)], []⟩
        (some "mine") = "mine" :=
  ⟨((C16_new_canvas_name (sampleGlobals true) ⟨[("c1", true), ("c1_n3", true)], []⟩
      blankCanvas).2 none (Or.inl rfl)).2.1,
    by decide,
    ((C16_new_canvas_name (sampleGlobals true) ⟨[("c1", true), ("c1_n3", true)], []⟩
      blankCanvas).1 "mine" (by decide)).1⟩

/-- C14 (witness).  In a session that is not batch, a canvas without implementation
takes the flag given; in a batch session the flag stays set. -/
theorem C14_witness_flags :
    (blankCanvas.SetBatch (sampleGlobals false) false).fBatch = false ∧
      (blankCanvas.SetBatch (sampleGlobals true) false).fBatch = true :=
  ⟨(C14_set_batch (sampleGlobals false) blankCanvas false).2.1 rfl rfl,
    (C14_set_batch (sampleGlobals true) blankCanvas false).1 (Or.inl rfl)⟩

/-- C17 (witness).  A canvas without window gives a null pointer and keeps pad 7
current; a canvas with window identifier 1 returns the pad `TPad::cd` made current,
here the pad numbered by the subpad number. -/
theorem C17_witness_cd :
    ((({ blankCanvas with fCanvasID := -1 } : TCanvas).cd (fun _ _ n => some n.toNat)
          (some 7) 2).result = none ∧
        (({ blankCanvas with fCanvasID := -1 } : TCanvas).cd (fun _ _ n => some n.toNat)
          (some 7) 2).gPad = some 7) ∧
      (({ blankCanvas with fCanvasID := 1 } : TCanvas).cd (fun _ _ n => some n.toNat)
          (some 7) 2).result = some 2 := by
  refine ⟨(C17_cd (fun _ _ n => some n.toNat) { blankCanvas with fCanvasID := -1 } (some 7)
    2).1 rfl, ?_⟩
  have h := (C17_cd (fun _ _ n => some n.toNat) { blankCanvas with fCanvasID := 1 } (some 7)
    2).2 (by decide)
  rw [h.1, h.2]
  rfl
